import Mathlib

/-!
# Parameter stores of `vowpalwabbit/array_parameters.h`

A shallow embedding of the dense store `weight_parameters`, the sparse store
`sparse_weight_parameters` and their iterators, over an explicit block heap.

* Machine integers are natural numbers wrapped with `u64` / `u32`.
* A pointer is a block identifier and a field offset; block `0` is the null
  block and is never allocated.
* A field read or write outside a live block is undefined in C++ and yields
  `none` here.
* The heap keeps the blocks of the allocator apart from the mappings made by
  `mmap`: `free` releases blocks of the allocator only.
* The stored values are never inspected by the stores, so the field type `W`
  is any type with a zero (the zero fill of `calloc` and the literal `0`
  written by `set_zero`).
-/

namespace VW

/-! ## Machine arithmetic -/

/-- Wrap to `uint64_t` / `size_t`. -/
def u64 (n : Nat) : Nat := n % 2 ^ 64

/-- Wrap to `uint32_t`. -/
def u32 (n : Nat) : Nat := n % 2 ^ 32

/-- Number of low bits an unsigned integer loses when it is held in the 53-bit
significand of a `double`. -/
def lost_bits : Nat → Nat → Nat
  | 0, _ => 0
  | fuel + 1, n => if n < 2 ^ 53 then 0 else lost_bits fuel (n / 2) + 1

/-- Value of the `double` an unsigned 64-bit integer converts to: exact below
`2^53`, otherwise rounded to 53 significant bits, to nearest, ties to even. -/
def to_double (n : Nat) : Nat :=
  let e := lost_bits 64 n
  let q := n / 2 ^ e
  let r := n % 2 ^ e
  if 2 ^ e < 2 * r ∨ (2 * r = 2 ^ e ∧ q % 2 = 1) then (q + 1) * 2 ^ e else q * 2 ^ e

/-- The call `floor(x)` of the source on an unsigned integer `x`: the argument
is converted to `double`, and `floor` is the identity on the integral value
that results. Where the source stores the result in a `uint64_t` or `size_t`
the model wraps it with `u64` (only `2^64` itself, reached from arguments of
at least `2^64 - 1024`, is out of range). -/
def floor (n : Nat) : Nat := to_double n

/-! ## Memory -/

/-- A `weight*`: a block and a field offset inside it. -/
structure Ptr where
  block : Nat
  off : Nat
deriving DecidableEq

/-- The null pointer. -/
def nullptr : Ptr := ⟨0, 0⟩

/-- Pointer plus integer, in fields, on a 64-bit machine. -/
def Ptr.add (p : Ptr) (n : Nat) : Ptr := ⟨p.block, u64 (p.off + n)⟩

/-- Record of one invocation of a default-initialisation callback: the address
its iterator argument dereferences to, what that iterator reports as
`index()`, and the three remaining arguments. -/
structure Call where
  bucket : Ptr
  iter_index : Nat
  index : Nat
  stride : Nat
  set_struct : Nat
deriving DecidableEq

/-- Contents of memory: block, offset, value. -/
abbrev Mem (W : Type) := Nat → Nat → W

/-- The heap: `size b = some n` when block `b` is a live block of the
allocator (`calloc`, released by `free`) with `n` fields; `maps b = some n`
when block `b` is a live mapping made by `mmap` with `n` fields; `next` is the
next unused block identifier; `calls` is the trace of callback invocations
made so far (instrumentation, not program state). -/
structure Heap (W : Type) where
  next : Nat
  size : Nat → Option Nat
  mem : Mem W
  calls : List Call
  maps : Nat → Option Nat

/-- The heap before any allocation. -/
def Heap.empty {W : Type} [Zero W] : Heap W :=
  { next := 1, size := fun _ => none, mem := fun _ _ => 0, calls := [], maps := fun _ => none }

/-- The number of fields of a live block, of the allocator or mapped. -/
def Heap.extent {W : Type} (h : Heap W) (b : Nat) : Option Nat :=
  match h.size b with
  | some n => some n
  | none => h.maps b

/-- Read through a pointer. -/
def Heap.read {W : Type} (h : Heap W) (p : Ptr) : Option W :=
  match h.extent p.block with
  | some n => if p.off < n then some (h.mem p.block p.off) else none
  | none => none

/-- Store `v` at block `b`, offset `o`. -/
def Mem.set {W : Type} (m : Mem W) (b o : Nat) (v : W) : Mem W :=
  fun b' o' => if b' = b ∧ o' = o then v else m b' o'

/-- Write through a pointer. -/
def Heap.write {W : Type} (h : Heap W) (p : Ptr) (v : W) : Option (Heap W) :=
  match h.extent p.block with
  | some n => if p.off < n then some { h with mem := h.mem.set p.block p.off v } else none
  | none => none

/-- Modelled from the spec: `calloc_mergable_or_throw<weight>(n)` is defined
outside this header. Per the spec it allocates `n` zero-initialised fields, and
allocation failure is process-fatal (not modelled). -/
def calloc_mergable_or_throw {W : Type} [Zero W] (h : Heap W) (n : Nat) : Ptr × Heap W :=
  (⟨h.next, 0⟩,
   { h with
     next := h.next + 1
     size := fun b => if b = h.next then some n else h.size b
     mem := fun b o => if b = h.next then 0 else h.mem b o })

/-! ## Dense store -/

/-- The class `weights_iterator<T>`. -/
structure weights_iterator where
  _current : Ptr
  _idx : Nat
  _stride : Nat
deriving DecidableEq

/-- The member `operator*`: the address dereferenced. -/
def weights_iterator.deref (it : weights_iterator) : Ptr := it._current

/-- The member `index()`. -/
def weights_iterator.index (it : weights_iterator) : Nat := it._idx

/-- The member `operator++`. -/
def weights_iterator.next (it : weights_iterator) : weights_iterator :=
  { it with _current := it._current.add it._stride, _idx := u64 (it._idx + 1) }

/-- The member `operator==`. -/
def weights_iterator.eq (a b : weights_iterator) : Bool := decide (a._current = b._current)

/-- The member `operator!=`. -/
def weights_iterator.ne (a b : weights_iterator) : Bool := decide (a._current ≠ b._current)

/-- Apply `operator++` `k` times. -/
def weights_iterator.advance (it : weights_iterator) : Nat → weights_iterator
  | 0 => it
  | k + 1 => (it.advance k).next

/-- The class `weight_parameters`. -/
structure weight_parameters where
  _begin : Ptr
  _weight_mask : Nat
  _stride_shift : Nat
  _stride : Nat
  _seeded : Bool
  set_struct : Nat
deriving DecidableEq

/-- A dense default-initialisation callback
`void T(iterator&, uint64_t, uint32_t, void*)`, by its effect on memory: the
callback reads the iterator it is handed and writes fields. -/
abbrev dense_callback (W : Type) := weights_iterator → Nat → Nat → Nat → Mem W → Mem W

/-- The constructor `weight_parameters(size_t length, uint32_t stride_shift)`.
`set_struct` is not initialised by the constructor; its indeterminate value is
the argument `ss`. The expression `1 << stride_shift` on `int` is undefined
for `stride_shift ≥ 32`, in which case no store results. -/
def weight_parameters.ctor {W : Type} [Zero W] (length stride_shift ss : Nat) (h : Heap W) :
    Option (weight_parameters × Heap W) :=
  if stride_shift < 32 then
    let a := calloc_mergable_or_throw h (u64 (length <<< stride_shift))
    some ({ _begin := a.1
            _weight_mask := u64 (u64 (length <<< stride_shift) + (2 ^ 64 - 1))
            _stride_shift := stride_shift
            _stride := u32 (1 <<< stride_shift)
            _seeded := false
            set_struct := ss }, a.2)
  else none

/-- The default constructor `weight_parameters()`. -/
def weight_parameters.ctor_default (ss : Nat) : weight_parameters :=
  { _begin := nullptr, _weight_mask := 0, _stride_shift := 0, _stride := 1, _seeded := false,
    set_struct := ss }

/-- The member `begin()`. -/
def weight_parameters.begin (w : weight_parameters) : weights_iterator :=
  ⟨w._begin, 0, w._stride⟩

/-- The member `end()`. Its index argument divides by `_stride`; for a zero
`_stride` (which no constructor produces) the division is undefined in C++
and is Lean's total division here. -/
def weight_parameters.end_ (w : weight_parameters) : weights_iterator :=
  ⟨(w._begin.add w._weight_mask).add 1, u64 (floor (u64 (w._weight_mask + 1) / w._stride)),
   w._stride⟩

/-- The member `operator[]`: the address of the field `_begin[i & _weight_mask]`. -/
def weight_parameters.subscript (w : weight_parameters) (i : Nat) : Ptr :=
  w._begin.add (i &&& w._weight_mask)

/-- The member `shallow_copy`, run on the target `w`. -/
def weight_parameters.shallow_copy (w input : weight_parameters) : weight_parameters :=
  { w with
    _begin := input._begin
    _weight_mask := input._weight_mask
    _stride_shift := input._stride_shift
    _seeded := true }

/-- The copy constructor: `shallow_copy` run on an object whose members hold
the indeterminate values `uninit`. -/
def weight_parameters.ctor_copy (uninit other : weight_parameters) : weight_parameters :=
  uninit.shallow_copy other

/-- The member `strided_index`: the address of `_begin[index << _stride_shift]`. -/
def weight_parameters.strided_index (w : weight_parameters) (index : Nat) : Ptr :=
  w._begin.add (u64 (index <<< w._stride_shift))

/-- One invocation of a callback: its effect on memory, and the trace entry. -/
def Heap.invoke {W : Type} (h : Heap W) (c : Call) (f : Mem W → Mem W) : Heap W :=
  { h with mem := f h.mem, calls := h.calls ++ [c] }

/-- The loop of `set_default<T>()`; `none` when the fuel runs out. -/
def weight_parameters.set_default_loop {W : Type} (T : dense_callback W) (w : weight_parameters) :
    Nat → weights_iterator → Nat → Heap W → Option (Heap W)
  | 0, _, _, _ => none
  | fuel + 1, iter, i, h =>
    if iter.ne w.end_ then
      weight_parameters.set_default_loop T w fuel iter.next (u64 (i + w._stride))
        (h.invoke ⟨iter.deref, iter.index, i, w._stride, w.set_struct⟩
          (T iter i w._stride w.set_struct))
    else some h

/-- The member `set_default<T>()`. An iterator takes at most `2^64` positions,
so `2^64 + 1` rounds of fuel are exhaustive. -/
def weight_parameters.set_default {W : Type} (T : dense_callback W) (w : weight_parameters)
    (h : Heap W) : Option (Heap W) :=
  weight_parameters.set_default_loop T w (2 ^ 64 + 1) w.begin 0 h

/-- The loop of `set_zero`; `none` when a write is out of bounds or the fuel
runs out. -/
def weight_parameters.set_zero_loop {W : Type} [Zero W] (w : weight_parameters) (offset : Nat) :
    Nat → weights_iterator → Heap W → Option (Heap W)
  | 0, _, _ => none
  | fuel + 1, iter, h =>
    if iter.ne w.end_ then
      match h.write (iter.deref.add offset) 0 with
      | some h1 => weight_parameters.set_zero_loop w offset fuel iter.next h1
      | none => none
    else some h

/-- The member `set_zero(offset)`. -/
def weight_parameters.set_zero {W : Type} [Zero W] (w : weight_parameters) (offset : Nat)
    (h : Heap W) : Option (Heap W) :=
  weight_parameters.set_zero_loop w offset (2 ^ 64 + 1) w.begin h

/-- The member `mask()`. -/
def weight_parameters.mask (w : weight_parameters) : Nat := w._weight_mask

/-- The member `seeded()`. -/
def weight_parameters.seeded (w : weight_parameters) : Bool := w._seeded

/-- The member `stride_shift()`. -/
def weight_parameters.stride_shift (w : weight_parameters) : Nat := w._stride_shift

/-- The member `stride_shift(uint32_t)`. -/
def weight_parameters.set_stride_shift (w : weight_parameters) (stride_shift : Nat) :
    weight_parameters :=
  { w with _stride_shift := stride_shift }

/-! ## Sparse store -/

/-- The type `weight_map`, a `std::unordered_map<size_t, weight*>`, as the list
of its entries in enumeration order. A `weight_map::iterator` is the part of
the enumeration that starts at its position; `end()` is the empty list. -/
abbrev weight_map := List (Nat × Ptr)

/-- The library call `_map.find(k)`. -/
def map_find : weight_map → Nat → weight_map
  | [], _ => []
  | e :: rest, k => if e.1 = k then e :: rest else map_find rest k

/-- The library call `_map.insert(e)`: no effect when the key is present. The
place of a new entry in the enumeration is unspecified; it is put first. -/
def map_insert (m : weight_map) (e : Nat × Ptr) : weight_map :=
  match map_find m e.1 with
  | [] => e :: m
  | _ :: _ => m

/-- The member access `iter->second`; dereferencing `end()` is undefined and
yields the null pointer, through which no field can be read or written. -/
def map_second : weight_map → Ptr
  | [] => nullptr
  | e :: _ => e.2

/-- The member access `iter->first`. -/
def map_first : weight_map → Option Nat
  | [] => none
  | e :: _ => some e.1

/-- A reference `weight_map::iterator&`, the type of the member `_iter` of
`sparse_weights_iterator<T>`: `target` is the value of the map iterator object
the reference was bound to, and `alive` tells whether that object still
exists. A reference bound to a local variable of a function that has returned
is not alive: reading or writing through it is undefined. -/
structure iter_ref where
  target : weight_map
  alive : Bool
deriving DecidableEq

/-- The class `sparse_weights_iterator<T>`. The member `_iter` is a reference
to a map iterator that the iterator does not own. -/
structure sparse_weights_iterator where
  _iter : iter_ref
  _stride : Nat
deriving DecidableEq

/-- The member `index()`, `_iter->first`; undefined (`none`) on `end()` and
through a reference that is not alive. -/
def sparse_weights_iterator.index (it : sparse_weights_iterator) : Option Nat :=
  if it._iter.alive then map_first it._iter.target else none

/-- The member `operator*`: the address `_iter->second` dereferenced. Through
a reference that is not alive the access is undefined and yields the null
pointer, through which no field can be read or written. -/
def sparse_weights_iterator.deref (it : sparse_weights_iterator) : Ptr :=
  if it._iter.alive then map_second it._iter.target else nullptr

/-- The member `operator++`, `_iter++` on the map iterator referred to;
undefined, and without effect here, through a reference that is not alive. -/
def sparse_weights_iterator.next (it : sparse_weights_iterator) : sparse_weights_iterator :=
  if it._iter.alive then { it with _iter := ⟨it._iter.target.tail, true⟩ } else it

/-- The member `operator==`, `_iter == rhs._iter`: the comparison of the two
map iterators referred to. Two references that are not alive were bound to the
local `i` of `begin()`, `end()`, `cbegin()` or `cend()`; these four frames
are laid out alike, both operands read the same dead stack slot, and the
comparison is undefined in C++ and true when run, whatever the maps hold.
Between a reference that is alive and one that is not the comparison is
undefined and is `false` here. -/
def sparse_weights_iterator.eq (a b : sparse_weights_iterator) : Bool :=
  match a._iter.alive, b._iter.alive with
  | true, true => decide (a._iter.target = b._iter.target)
  | false, false => true
  | _, _ => false

/-- A sparse default-initialisation callback, by its effect on memory. -/
abbrev sparse_callback (W : Type) := sparse_weights_iterator → Nat → Nat → Nat → Mem W → Mem W

/-- The class `sparse_weight_parameters`; `fun_` is the member `fun`, `none`
for the null function pointer. -/
structure sparse_weight_parameters (W : Type) where
  _map : weight_map
  _weight_mask : Nat
  _stride_shift : Nat
  _stride : Nat
  _seeded : Bool
  _delete : Bool
  fun_ : Option (sparse_callback W)
  set_struct : Nat

/-- The constructor `sparse_weight_parameters(size_t length, uint32_t stride_shift)`;
see `weight_parameters.ctor` for `ss` and for `stride_shift ≥ 32`. -/
def sparse_weight_parameters.ctor {W : Type} (length stride_shift ss : Nat) :
    Option (sparse_weight_parameters W) :=
  if stride_shift < 32 then
    some { _map := []
           _weight_mask := u64 (u64 (length <<< stride_shift) + (2 ^ 64 - 1))
           _stride_shift := stride_shift
           _stride := u32 (1 <<< stride_shift)
           _seeded := false
           _delete := false
           fun_ := none
           set_struct := ss }
  else none

/-- The default constructor `sparse_weight_parameters()`. -/
def sparse_weight_parameters.ctor_default {W : Type} (ss : Nat) : sparse_weight_parameters W :=
  { _map := [], _weight_mask := 0, _stride_shift := 0, _stride := 1, _seeded := false,
    _delete := false, fun_ := none, set_struct := ss }

/-- The member `begin()`:
`weight_map::iterator i = _map.begin(); return iterator(i, _stride);`. The
iterator returned refers to the local `i`, which is dead on return. -/
def sparse_weight_parameters.begin {W : Type} (sp : sparse_weight_parameters W) :
    sparse_weights_iterator := ⟨⟨sp._map, false⟩, sp._stride⟩

/-- The member `end()`:
`weight_map::iterator i = _map.end(); return iterator(i, _stride);`. The
iterator returned refers to the local `i`, which is dead on return. -/
def sparse_weight_parameters.end_ {W : Type} (sp : sparse_weight_parameters W) :
    sparse_weights_iterator := ⟨⟨[], false⟩, sp._stride⟩

/-- The bucket key computed by `operator[]`:
`uint64_t index = floor((i & _weight_mask) / _stride)`. For a zero `_stride`
(which no constructor produces) the division, and the `%` of
`bucket_offset`, are undefined in C++ and are Lean's total operations here. -/
def sparse_weight_parameters.bucket_key {W : Type} (sp : sparse_weight_parameters W) (i : Nat) :
    Nat :=
  u64 (floor ((i &&& sp._weight_mask) / sp._stride))

/-- The offset computed by `operator[]`:
`size_t offset = (i & _weight_mask) % _stride`. -/
def sparse_weight_parameters.bucket_offset {W : Type} (sp : sparse_weight_parameters W)
    (i : Nat) : Nat :=
  (i &&& sp._weight_mask) % sp._stride

/-- The block of `operator[]` and `strided_index` run when the key is absent:
allocate a zeroed bucket, insert it, look it up, and call `fun` when it is set
(with `index << _stride_shift` wrapped to 64 bits). The iterator `i(iter, _stride)`
handed to `fun` refers to the local `iter`, which is alive during the call.
Returns the new map and heap. -/
def sparse_weight_parameters.materialise {W : Type} [Zero W] (sp : sparse_weight_parameters W)
    (h : Heap W) (index : Nat) : weight_map × Heap W :=
  let a := calloc_mergable_or_throw h sp._stride
  let m := map_insert sp._map (index, a.1)
  let iter := map_find m index
  match sp.fun_ with
  | some f =>
    (m, a.2.invoke ⟨map_second iter, (map_first iter).getD 0, u64 (index <<< sp._stride_shift),
                    sp._stride, sp.set_struct⟩
          (f ⟨⟨iter, true⟩, sp._stride⟩ (u64 (index <<< sp._stride_shift)) sp._stride
            sp.set_struct))
  | none => (m, a.2)

/-- The member `operator[]`: the address of the field, the store and the heap
after the call. -/
def sparse_weight_parameters.subscript {W : Type} [Zero W] (sp : sparse_weight_parameters W)
    (h : Heap W) (i : Nat) : Ptr × sparse_weight_parameters W × Heap W :=
  let index := sp.bucket_key i
  match map_find sp._map index with
  | [] =>
    let r := sp.materialise h index
    ((map_second (map_find r.1 index)).add (sp.bucket_offset i), { sp with _map := r.1 }, r.2)
  | e :: _ => (e.2.add (sp.bucket_offset i), sp, h)

/-- The member `strided_index`. -/
def sparse_weight_parameters.strided_index {W : Type} [Zero W] (sp : sparse_weight_parameters W)
    (h : Heap W) (index : Nat) : Ptr × sparse_weight_parameters W × Heap W :=
  match map_find sp._map index with
  | [] =>
    let r := sp.materialise h index
    (map_second (map_find r.1 index), { sp with _map := r.1 }, r.2)
  | e :: _ => (e.2, sp, h)

/-- The member `shallow_copy`, run on the target `sp`: the map object is
copied, so both maps hold the same block pointers. -/
def sparse_weight_parameters.shallow_copy {W : Type} (sp input : sparse_weight_parameters W) :
    sparse_weight_parameters W :=
  { sp with
    _map := input._map
    _weight_mask := input._weight_mask
    _stride_shift := input._stride_shift
    _seeded := true }

/-- The copy constructor: `shallow_copy` run on an object whose members hold
the indeterminate values `uninit`. -/
def sparse_weight_parameters.ctor_copy {W : Type} (uninit other : sparse_weight_parameters W) :
    sparse_weight_parameters W :=
  uninit.shallow_copy other

/-- The member `set_default<T>()`. -/
def sparse_weight_parameters.set_default {W : Type} (T : sparse_callback W)
    (sp : sparse_weight_parameters W) : sparse_weight_parameters W :=
  { sp with fun_ := some T }

/-- The loop of `set_zero` over the enumeration of the map. -/
def sparse_weight_parameters.set_zero_loop {W : Type} [Zero W] (offset : Nat) :
    weight_map → Heap W → Option (Heap W)
  | [], h => some h
  | e :: rest, h =>
    match h.write (e.2.add offset) 0 with
    | some h1 => sparse_weight_parameters.set_zero_loop offset rest h1
    | none => none

/-- The member `set_zero(offset)`. -/
def sparse_weight_parameters.set_zero {W : Type} [Zero W] (sp : sparse_weight_parameters W)
    (offset : Nat) (h : Heap W) : Option (Heap W) :=
  sparse_weight_parameters.set_zero_loop offset sp._map h

/-- The member `mask()`. -/
def sparse_weight_parameters.mask {W : Type} (sp : sparse_weight_parameters W) : Nat :=
  sp._weight_mask

/-- The member `seeded()`. -/
def sparse_weight_parameters.seeded {W : Type} (sp : sparse_weight_parameters W) : Bool :=
  sp._seeded

/-- The member `stride_shift()`. -/
def sparse_weight_parameters.stride_shift {W : Type} (sp : sparse_weight_parameters W) : Nat :=
  sp._stride_shift

/-- The member `stride_shift(uint32_t)`. -/
def sparse_weight_parameters.set_stride_shift {W : Type} (sp : sparse_weight_parameters W)
    (stride_shift : Nat) : sparse_weight_parameters W :=
  { sp with _stride_shift := stride_shift }

/-! ## Sharing, destruction and constant iteration -/

/-- The constant `sizeof(float)`. -/
def sizeof_float : Nat := 4

/-- The value `MAP_FAILED`, `(void*) -1`: an address inside no block. -/
def MAP_FAILED : Ptr := ⟨0, 2 ^ 64 - 1⟩

/-- The system call
`mmap(0, bytes, PROT_READ | PROT_WRITE, MAP_SHARED | MAP_ANONYMOUS, -1, 0)`:
a fresh zero-filled mapping of `bytes / sizeof(float)` fields, which is not a
block of the allocator; a zero length is refused with `MAP_FAILED`.
Exhaustion of memory is not modelled. -/
def mmap_shared_anonymous {W : Type} [Zero W] (h : Heap W) (bytes : Nat) : Ptr × Heap W :=
  if bytes = 0 then (MAP_FAILED, h)
  else
    (⟨h.next, 0⟩,
     { h with
       next := h.next + 1
       size := fun b => if b = h.next then none else h.size b
       maps := fun b => if b = h.next then some (bytes / sizeof_float) else h.maps b
       mem := fun b o => if b = h.next then 0 else h.mem b o })

/-- The library call `memcpy(dest, src, bytes)` on whole fields: a copy of
`bytes / sizeof(float)` fields; undefined when a range leaves a live block.
A copy of no field does nothing. -/
def memcpy {W : Type} (h : Heap W) (dest src : Ptr) (bytes : Nat) : Option (Heap W) :=
  if bytes / sizeof_float = 0 then some h
  else
    match h.extent dest.block, h.extent src.block with
    | some nd, some ns =>
      if dest.off + bytes / sizeof_float ≤ nd ∧ src.off + bytes / sizeof_float ≤ ns then
        some { h with
               mem := fun b o =>
                 if b = dest.block ∧ dest.off ≤ o ∧ o < dest.off + bytes / sizeof_float then
                   h.mem src.block (src.off + (o - dest.off))
                 else h.mem b o }
      else none
    | _, _ => none

/-- The library call `free(p)`: nothing for the null pointer; the release of
the live block of the allocator that `p` is the base of; undefined otherwise:
for a block already released, for an address inside a block, and for the
address of a mapping made by `mmap`, which is in `maps` and not in `size`. -/
def free {W : Type} (h : Heap W) (p : Ptr) : Option (Heap W) :=
  if p = nullptr then some h
  else
    match h.size p.block with
    | some _ =>
      if p.off = 0 then some { h with size := fun b => if b = p.block then none else h.size b }
      else none
    | none => none

/-- The member `share(length)`: the store and the heap after the call. The
mapping is never unmapped (the source has no `munmap`). -/
def weight_parameters.share {W : Type} [Zero W] (w : weight_parameters) (length : Nat)
    (h : Heap W) : Option (weight_parameters × Heap W) :=
  let shared_weights :=
    mmap_shared_anonymous h (u64 (u64 (length <<< w._stride_shift) * sizeof_float))
  let float_count := u64 (length <<< w._stride_shift)
  match memcpy shared_weights.2 shared_weights.1 w._begin (u64 (float_count * sizeof_float)) with
  | some h1 =>
    match free h1 w._begin with
    | some h2 => some ({ w with _begin := shared_weights.1 }, h2)
    | none => none
  | none => none

/-- The destructor `~weight_parameters()`: the object and the heap after it.
It calls `free` on `_begin` whatever `_begin` came from. -/
def weight_parameters.dtor {W : Type} (w : weight_parameters) (h : Heap W) :
    Option (weight_parameters × Heap W) :=
  if w._begin ≠ nullptr ∧ w._seeded = false then
    match free h w._begin with
    | some h1 => some ({ w with _begin := nullptr }, h1)
    | none => none
  else some (w, h)

/-- The destructor `~sparse_weight_parameters()`: it clears the map and calls
no `free`, so it has no effect on the heap. -/
def sparse_weight_parameters.dtor {W : Type} (sp : sparse_weight_parameters W) :
    sparse_weight_parameters W :=
  if sp._delete = false ∧ sp._seeded = false then { sp with _map := [], _delete := true } else sp

/-- The member `not_null()` of the dense store. -/
def weight_parameters.not_null (w : weight_parameters) : Bool :=
  decide (0 < w._weight_mask) && decide (w._begin ≠ nullptr)

/-- The member `cbegin()` of the dense store. -/
def weight_parameters.cbegin (w : weight_parameters) : weights_iterator :=
  ⟨w._begin, 0, w._stride⟩

/-- The member `cend()` of the dense store. -/
def weight_parameters.cend (w : weight_parameters) : weights_iterator :=
  ⟨(w._begin.add w._weight_mask).add 1, u64 (floor (u64 (w._weight_mask + 1) / w._stride)),
   w._stride⟩

/-- The member `cbegin()` of the sparse store:
`weight_map::iterator i = _map.begin(); return const_iterator(i, _stride);`.
The iterator returned refers to the local `i`, which is dead on return. -/
def sparse_weight_parameters.cbegin {W : Type} (sp : sparse_weight_parameters W) :
    sparse_weights_iterator := ⟨⟨sp._map, false⟩, sp._stride⟩

/-- The member `cend()` of the sparse store:
`weight_map::iterator i = _map.begin(); return const_iterator(i, _stride);`,
on `_map.begin()` as the source has it. The iterator returned refers to the
local `i`, which is dead on return. -/
def sparse_weight_parameters.cend {W : Type} (sp : sparse_weight_parameters W) :
    sparse_weights_iterator := ⟨⟨sp._map, false⟩, sp._stride⟩

/-- The member `operator!=` of the sparse iterator, `_iter != rhs._iter`: the
negation of `operator==`. -/
def sparse_weights_iterator.ne (a b : sparse_weights_iterator) : Bool :=
  !(a.eq b)

/-- The buckets a loop `for (it = first; it != last; ++it)` visits on a sparse
store, in order; `none` when the fuel runs out. -/
def sparse_range (last : sparse_weights_iterator) :
    Nat → sparse_weights_iterator → Option (List Ptr)
  | 0, _ => none
  | fuel + 1, it =>
    if it.ne last then
      match sparse_range last fuel it.next with
      | some ps => some (it.deref :: ps)
      | none => none
    else some []

/-! ## Client statements -/

/-- The statement `w[i] = v` on a dense store. -/
def weight_parameters.store {W : Type} (w : weight_parameters) (h : Heap W) (i : Nat) (v : W) :
    Option (Heap W) :=
  h.write (w.subscript i) v

/-- The expression `w[i]` read as a value, on a dense store. -/
def weight_parameters.load {W : Type} (w : weight_parameters) (h : Heap W) (i : Nat) :
    Option W :=
  h.read (w.subscript i)

/-- The statement `sp[i] = v` on a sparse store: the store and heap after it. -/
def sparse_weight_parameters.store {W : Type} [Zero W] (sp : sparse_weight_parameters W)
    (h : Heap W) (i : Nat) (v : W) : Option (sparse_weight_parameters W × Heap W) :=
  match (sp.subscript h i).2.2.write (sp.subscript h i).1 v with
  | some h1 => some ((sp.subscript h i).2.1, h1)
  | none => none

/-- The expression `sp[i]` read as a value, on a sparse store: the value, and
the store and heap after the access. -/
def sparse_weight_parameters.load {W : Type} [Zero W] (sp : sparse_weight_parameters W)
    (h : Heap W) (i : Nat) : Option (W × sparse_weight_parameters W × Heap W) :=
  match (sp.subscript h i).2.2.read (sp.subscript h i).1 with
  | some v => some (v, (sp.subscript h i).2.1, (sp.subscript h i).2.2)
  | none => none

/-- A client operation applicable to either store: `store[i] = v`, or
`store.set_zero(offset)`. -/
inductive store_op (W : Type) where
  | write (i : Nat) (v : W)
  | set_zero (offset : Nat)

/-- Run a sequence of operations on a dense store. -/
def weight_parameters.run {W : Type} [Zero W] (w : weight_parameters) :
    List (store_op W) → Heap W → Option (Heap W)
  | [], h => some h
  | store_op.write i v :: ops, h =>
    match w.store h i v with
    | some h1 => w.run ops h1
    | none => none
  | store_op.set_zero k :: ops, h =>
    match w.set_zero k h with
    | some h1 => w.run ops h1
    | none => none

/-- Run a sequence of operations on a sparse store. -/
def sparse_weight_parameters.run {W : Type} [Zero W] :
    List (store_op W) → sparse_weight_parameters W → Heap W →
      Option (sparse_weight_parameters W × Heap W)
  | [], sp, h => some (sp, h)
  | store_op.write i v :: ops, sp, h =>
    match sp.store h i v with
    | some r => sparse_weight_parameters.run ops r.1 r.2
    | none => none
  | store_op.set_zero k :: ops, sp, h =>
    match sp.set_zero k h with
    | some h1 => sparse_weight_parameters.run ops sp h1
    | none => none

/-! ## Statements of the spec, for comparison -/

/-- The heap after `T` has been invoked, in the order of the list `ks`, once
for each bucket number `k` of the list, with an iterator positioned at offset
`k * _stride` of the backing block and the arguments
`(k * _stride, _stride, set_struct)`: the sequence of invocations that the
spec ascribes to the dense `applyDefault`, to be compared with what
`weight_parameters.set_default` does. -/
def dense_invocations {W : Type} (T : dense_callback W) (w : weight_parameters) (ks : List Nat)
    (h : Heap W) : Heap W :=
  ks.foldl (fun g k =>
    g.invoke ⟨⟨w._begin.block, k * w._stride⟩, k, k * w._stride, w._stride, w.set_struct⟩
      (T ⟨⟨w._begin.block, k * w._stride⟩, k, w._stride⟩ (k * w._stride) w._stride
        w.set_struct)) h

/-- The value a sparse store holds for slot `x` (a masked raw index): field
`x % _stride` of the bucket stored under key `x / _stride`, and 0 when there is
no such bucket. -/
def sparse_value {W : Type} [Zero W] (sp : sparse_weight_parameters W) (h : Heap W) (x : Nat) :
    W :=
  match map_find sp._map (x / sp._stride) with
  | [] => 0
  | e :: _ => h.mem e.2.block (x % sp._stride)

/-! ## Well-formed states -/

/-- A dense store over a heap in which its backing block is live and holds
every slot up to the mask. -/
structure dense_ok {W : Type} (w : weight_parameters) (h : Heap W) : Prop where
  base : w._begin.off = 0
  mask_lt : w._weight_mask < 2 ^ 64
  block : ∃ n, h.size w._begin.block = some n ∧ w._weight_mask < n

/-- A dense store laid out as `n` buckets of `_stride` fields each: the mask
covers exactly `n * _stride` slots, without wrapping. -/
structure dense_layout (w : weight_parameters) (n : Nat) : Prop where
  base : w._begin.off = 0
  stride_pos : 0 < w._stride
  cover : w._weight_mask + 1 = n * w._stride
  bound : n * w._stride < 2 ^ 64

/-- The relation kept between a dense store of `L` buckets of `st` fields and a
sparse store with the same mask and stride and no callback: every bucket of the
sparse map is a live block of its own, and every slot holds the same value in
both stores. -/
structure store_sim {W : Type} [Zero W] (L st : Nat) (w : weight_parameters) (hd : Heap W)
    (sp : sparse_weight_parameters W) (hs : Heap W) : Prop where
  st_pos : 0 < st
  bound : L * st < 2 ^ 64
  few : L ≤ 2 ^ 53
  d_base : w._begin.off = 0
  d_mask : w._weight_mask + 1 = L * st
  d_stride : w._stride = st
  d_size : hd.size w._begin.block = some (L * st)
  s_mask : sp._weight_mask = w._weight_mask
  s_stride : sp._stride = st
  s_fun : sp.fun_ = none
  s_buckets : ∀ e ∈ sp._map, e.2.off = 0 ∧ hs.size e.2.block = some st ∧ e.2.block < hs.next
  s_inj : ∀ e1 ∈ sp._map, ∀ e2 ∈ sp._map, e1.2.block = e2.2.block → e1.1 = e2.1
  agree : ∀ x, x < L * st → hd.mem w._begin.block x = sparse_value sp hs x

/-! ## Concrete stores and scenarios -/

/-- Scenario A of the spec: Dense(length = 8, strideShift = 1), built on the
empty heap, has mask 15 and stride 2. -/
def dense_8_1 : weight_parameters :=
  { _begin := ⟨1, 0⟩, _weight_mask := 15, _stride_shift := 1, _stride := 2, _seeded := false,
    set_struct := 0 }

/-- The heap after the construction of `dense_8_1` on the empty heap. -/
def dense_8_1_heap : Heap ℚ := (calloc_mergable_or_throw (Heap.empty : Heap ℚ) 16).2

/-- The heap of `dense_8_1` with 5.0 in every field. -/
def dense_8_1_fives : Heap ℚ := { dense_8_1_heap with mem := fun _ _ => 5 }

/-- Dense(length = 4, strideShift = 2): mask 15, stride 4; its backing block
is block 2. -/
def dense_4_2 : weight_parameters :=
  { _begin := ⟨2, 0⟩, _weight_mask := 15, _stride_shift := 2, _stride := 4, _seeded := false,
    set_struct := 0 }

/-- Sparse(length = 8, strideShift = 1). -/
def sparse_8_1 : sparse_weight_parameters ℚ :=
  { _map := [], _weight_mask := 15, _stride_shift := 1, _stride := 2, _seeded := false,
    _delete := false, fun_ := none, set_struct := 0 }

/-- Sparse(8, 1) holding one bucket, under key 2, in block 1. -/
def sparse_8_1_one : sparse_weight_parameters ℚ := { sparse_8_1 with _map := [(2, ⟨1, 0⟩)] }

/-- A heap for `sparse_8_1_one`: block 1 has 2 fields, both 5.0. -/
def sparse_8_1_fives : Heap ℚ :=
  { (calloc_mergable_or_throw (Heap.empty : Heap ℚ) 2).2 with mem := fun _ _ => 5 }

/-- Sparse(length = 8, strideShift = 0), as in Scenario B of the spec. -/
def sparse_8_0 : sparse_weight_parameters ℚ :=
  { _map := [], _weight_mask := 7, _stride_shift := 0, _stride := 1, _seeded := false,
    _delete := false, fun_ := none, set_struct := 0 }

/-- Sparse(length = 4, strideShift = 2): mask 15, stride 4. -/
def sparse_4_2 : sparse_weight_parameters ℚ :=
  { _map := [], _weight_mask := 15, _stride_shift := 2, _stride := 4, _seeded := false,
    _delete := false, fun_ := none, set_struct := 0 }

/-- A callback that sets the first field of the bucket it is handed to 1.0. -/
def set_one : sparse_callback ℚ := fun it _ _ _ m => m.set it.deref.block it.deref.off 1

/-- A dense callback that sets the first field of the bucket it is handed to
1.0. -/
def dense_set_one : dense_callback ℚ := fun it _ _ _ m => m.set it.deref.block it.deref.off 1

/-- Scenario B of the spec, run on the empty heap: read index 5, register
`set_one`, read index 6, read index 5 again; the three values read. -/
def scenario_B : Option (ℚ × ℚ × ℚ) :=
  match sparse_weight_parameters.ctor 8 0 0 with
  | none => none
  | some sp0 =>
    match sp0.load (Heap.empty : Heap ℚ) 5 with
    | none => none
    | some (a, sp1, h1) =>
      match (sp1.set_default set_one).load h1 6 with
      | none => none
      | some (b, sp2, h2) =>
        match sp2.load h2 5 with
        | none => none
        | some (c, _, _) => some (a, b, c)

/-- A dense alias at work: `b` is the copy of Dense(8, 1); 1.0 is written
through `b[5]`, then `a[5]` is read; then 2.0 is written through `a[6]` and
`b[6]` is read. The two values read. -/
def dense_alias_scenario : Option (ℚ × ℚ) :=
  let a := dense_8_1
  let b := weight_parameters.ctor_copy (weight_parameters.ctor_default 0) a
  match b.store dense_8_1_heap 5 1 with
  | none => none
  | some h1 =>
    match a.load h1 5 with
    | none => none
    | some x =>
      match a.store h1 6 2 with
      | none => none
      | some h2 =>
        match b.load h2 6 with
        | none => none
        | some y => some (x, y)

/-- The same on the sparse store: `b` is the copy of the freshly built
Sparse(8, 0); 1.0 is written through `b[5]`, then `a[5]` is read; then 2.0 is
written through `a[6]` and `b[6]` is read. The two values read. -/
def sparse_alias_scenario : Option (ℚ × ℚ) :=
  let a := sparse_8_0
  let b := sparse_weight_parameters.ctor_copy (sparse_weight_parameters.ctor_default 0) a
  match b.store (Heap.empty : Heap ℚ) 5 1 with
  | none => none
  | some (b1, h1) =>
    match a.load h1 5 with
    | none => none
    | some (x, a1, h2) =>
      match a1.store h2 6 2 with
      | none => none
      | some (_, h3) =>
        match b1.load h3 6 with
        | none => none
        | some (y, _, _) => some (x, y)

/-- Build Dense(L, s) and Sparse(L, s), each on an empty heap, run the same
operations on both, and read raw index `i` from both: the outcome of the dense
read and of the sparse read (`none` for a read outside every live block).
The result is `none` when a store cannot be built or an operation fails. -/
def side_by_side (L s : Nat) (ops : List (store_op ℚ)) (i : Nat) :
    Option (Option ℚ × Option ℚ) :=
  match weight_parameters.ctor L s 0 (Heap.empty : Heap ℚ),
      (sparse_weight_parameters.ctor L s 0 : Option (sparse_weight_parameters ℚ)) with
  | some (w, hd), some sp =>
    match w.run ops hd, sparse_weight_parameters.run ops sp (Heap.empty : Heap ℚ) with
    | some hd1, some (sp1, hs1) =>
      some (w.load hd1 i,
        match sp1.load hs1 i with
        | some r => some r.1
        | none => none)
    | _, _ => none
  | _, _ => none

/-- Dense(length = 3, strideShift = 0), a length that is no power of two: mask 2,
stride 1, three fields in block 1. -/
def dense_3_0 : weight_parameters :=
  { _begin := ⟨1, 0⟩, _weight_mask := 2, _stride_shift := 0, _stride := 1, _seeded := false,
    set_struct := 0 }

/-- The heap after the construction of `dense_3_0` on the empty heap. -/
def dense_3_0_heap : Heap ℚ := (calloc_mergable_or_throw (Heap.empty : Heap ℚ) 3).2

/-- Dense(length = 1, strideShift = 1): mask 1, stride 2; its block is block 3. -/
def dense_1_1 : weight_parameters :=
  { _begin := ⟨3, 0⟩, _weight_mask := 1, _stride_shift := 1, _stride := 2, _seeded := false,
    set_struct := 0 }

/-- Sparse(length = 1, strideShift = 1): mask 1, stride 2. -/
def sparse_1_1 : sparse_weight_parameters ℚ :=
  { _map := [], _weight_mask := 1, _stride_shift := 1, _stride := 2, _seeded := false,
    _delete := false, fun_ := none, set_struct := 0 }

/-- The data-model invariant of the spec on the addressing parameters of a
store: the stride is `2 ^ stride_shift`, and `mask + 1` is a multiple of the
stride. -/
def addressing_invariant (mask stride_shift stride : Nat) : Prop :=
  stride = 2 ^ stride_shift ∧ (mask + 1) % stride = 0

/-! ## Masking -/

theorem land_mask_idem (i m : Nat) : (i &&& m) &&& m = i &&& m := by
  rw [Nat.land_assoc, Nat.and_self]

/-- C1. Masking totality: on every dense store and every sparse store, in every
state, `operator[](i)` and `operator[](i & mask())` return the address of the
same field; for the sparse store they compute the same bucket key and the same
offset in the bucket, and end in the same store and heap. The dense
`operator[]` is a constant member that changes nothing. -/
theorem masking_totality {W : Type} [Zero W] (w : weight_parameters)
    (sp : sparse_weight_parameters W) (h : Heap W) (i : Nat) :
    w.subscript i = w.subscript (i &&& w.mask) ∧
    sp.bucket_key i = sp.bucket_key (i &&& sp.mask) ∧
    sp.bucket_offset i = sp.bucket_offset (i &&& sp.mask) ∧
    sp.subscript h i = sp.subscript h (i &&& sp.mask) := by
  simp only [weight_parameters.subscript, weight_parameters.mask,
    sparse_weight_parameters.subscript, sparse_weight_parameters.bucket_key,
    sparse_weight_parameters.bucket_offset, sparse_weight_parameters.mask, land_mask_idem,
    and_self]

/-! ## Memory and map lemmas -/

theorem u64_of_lt {n : Nat} (h : n < 2 ^ 64) : u64 n = n := Nat.mod_eq_of_lt h

theorem lost_bits_of_lt (fuel n : Nat) (hn : n < 2 ^ 53) : lost_bits fuel n = 0 := by
  cases fuel with
  | zero => rfl
  | succ f => simp only [lost_bits, hn, if_true]

/-- Below `2^53` the conversion to `double` is exact, so `floor` returns its
argument. -/
theorem floor_of_lt {n : Nat} (hn : n < 2 ^ 53) : floor n = n := by
  unfold floor to_double
  rw [lost_bits_of_lt 64 n hn]
  simp [Nat.mod_one]

theorem Heap.write_of_size {W : Type} (h : Heap W) (p : Ptr) (v : W) (n : Nat)
    (hs : h.size p.block = some n) (hlt : p.off < n) :
    h.write p v = some { h with mem := h.mem.set p.block p.off v } := by
  simp [Heap.write, Heap.extent, hs, hlt]

theorem Heap.write_inv {W : Type} {h h1 : Heap W} {p : Ptr} {v : W}
    (hw : h.write p v = some h1) :
    h1 = { h with mem := h.mem.set p.block p.off v } ∧
      ∃ n, h.extent p.block = some n ∧ p.off < n := by
  unfold Heap.write at hw
  split at hw
  · rename_i n hn
    split at hw
    · rename_i hlt
      exact ⟨(Option.some.inj hw).symm, n, hn, hlt⟩
    · exact absurd hw (by simp)
  · exact absurd hw (by simp)

theorem Heap.read_of_size {W : Type} (h : Heap W) (p : Ptr) (n : Nat)
    (hs : h.size p.block = some n) (hlt : p.off < n) :
    h.read p = some (h.mem p.block p.off) := by
  simp [Heap.read, Heap.extent, hs, hlt]

theorem Heap.read_of_extent {W : Type} (h : Heap W) (p : Ptr) (n : Nat)
    (hs : h.extent p.block = some n) (hlt : p.off < n) :
    h.read p = some (h.mem p.block p.off) := by
  simp [Heap.read, hs, hlt]

theorem map_find_insert (m : weight_map) (k : Nat) (p : Ptr) (hk : map_find m k = []) :
    map_insert m (k, p) = (k, p) :: m ∧ map_find (map_insert m (k, p)) k = (k, p) :: m := by
  have h1 : map_insert m (k, p) = (k, p) :: m := by
    simp [map_insert, hk]
  refine ⟨h1, ?_⟩
  rw [h1]
  simp [map_find]

theorem map_find_head {m : weight_map} {k : Nat} {e : Nat × Ptr} {rest : weight_map}
    (h : map_find m k = e :: rest) : e ∈ m ∧ e.1 = k := by
  induction m with
  | nil => simp [map_find] at h
  | cons a t ih =>
    unfold map_find at h
    split at h
    · rename_i hak
      have hae : a = e := (List.cons.inj h).1
      subst hae
      exact ⟨List.mem_cons_self _ _, hak⟩
    · exact ⟨List.mem_cons_of_mem _ (ih h).1, (ih h).2⟩

theorem materialise_map {W : Type} [Zero W] (sp : sparse_weight_parameters W) (h : Heap W)
    (k : Nat) (hk : map_find sp._map k = []) :
    (sp.materialise h k).1 = (k, ⟨h.next, 0⟩) :: sp._map := by
  have := (map_find_insert sp._map k ⟨h.next, 0⟩ hk).1
  unfold sparse_weight_parameters.materialise
  cases sp.fun_ <;> simpa [calloc_mergable_or_throw] using this

theorem materialise_size {W : Type} [Zero W] (sp : sparse_weight_parameters W) (h : Heap W)
    (k : Nat) :
    (sp.materialise h k).2.size = (fun b => if b = h.next then some sp._stride else h.size b) ∧
    (sp.materialise h k).2.next = h.next + 1 := by
  unfold sparse_weight_parameters.materialise
  cases sp.fun_ <;> simp [calloc_mergable_or_throw, Heap.invoke]

/-- What `operator[]` returns when the bucket is absent. -/
theorem sparse_subscript_absent {W : Type} [Zero W] (sp : sparse_weight_parameters W)
    (h : Heap W) (i : Nat) (hk : map_find sp._map (sp.bucket_key i) = []) :
    sp.subscript h i =
      ((⟨h.next, 0⟩ : Ptr).add (sp.bucket_offset i),
       { sp with _map := (sp.bucket_key i, ⟨h.next, 0⟩) :: sp._map },
       (sp.materialise h (sp.bucket_key i)).2) := by
  have hm := materialise_map sp h _ hk
  simp only [sparse_weight_parameters.subscript, hk, hm]
  simp [map_find, map_second]

/-- What `operator[]` returns when the bucket is present. -/
theorem sparse_subscript_present {W : Type} [Zero W] (sp : sparse_weight_parameters W)
    (h : Heap W) (i : Nat) (e : Nat × Ptr) (rest : weight_map)
    (hk : map_find sp._map (sp.bucket_key i) = e :: rest) :
    sp.subscript h i = (e.2.add (sp.bucket_offset i), sp, h) := by
  simp only [sparse_weight_parameters.subscript, hk]

theorem dense_subscript_eq {W : Type} (w : weight_parameters) (h : Heap W) (ok : dense_ok w h)
    (i : Nat) : w.subscript i = ⟨w._begin.block, i &&& w._weight_mask⟩ := by
  have : i &&& w._weight_mask < 2 ^ 64 := lt_of_le_of_lt Nat.and_le_right ok.mask_lt
  simp [weight_parameters.subscript, Ptr.add, ok.base, u64_of_lt this]

/-! ## Round trip -/

theorem shift_no_overflow {L s : Nat} (hov : L * 2 ^ s < 2 ^ 64) :
    u64 (L <<< s) = L * 2 ^ s := by
  rw [Nat.shiftLeft_eq, u64_of_lt hov]

theorem mask_no_overflow {L s : Nat} (hL : 1 ≤ L) (hov : L * 2 ^ s < 2 ^ 64) :
    u64 (u64 (L <<< s) + (2 ^ 64 - 1)) = L * 2 ^ s - 1 := by
  have hpos : 1 ≤ L * 2 ^ s := Nat.mul_pos hL (Nat.pos_pow_of_pos s (by decide))
  rw [shift_no_overflow hov]
  unfold u64
  have : L * 2 ^ s + (2 ^ 64 - 1) = (L * 2 ^ s - 1) + 2 ^ 64 := by omega
  rw [this, Nat.add_mod_right]
  exact Nat.mod_eq_of_lt (by omega)

theorem stride_no_overflow {s : Nat} (hs : s < 32) : u32 (1 <<< s) = 2 ^ s := by
  rw [Nat.one_shiftLeft]
  exact Nat.mod_eq_of_lt (Nat.pow_lt_pow_right (by decide) hs)

/-- The store and heap the dense constructor produces when nothing wraps. -/
theorem dense_ctor_spec {W : Type} [Zero W] {L s ss : Nat} {h h1 : Heap W}
    {w : weight_parameters} (hc : weight_parameters.ctor L s ss h = some (w, h1))
    (hL : 1 ≤ L) (hov : L * 2 ^ s < 2 ^ 64) :
    s < 32 ∧
    w = { _begin := ⟨h.next, 0⟩, _weight_mask := L * 2 ^ s - 1, _stride_shift := s,
          _stride := 2 ^ s, _seeded := false, set_struct := ss } ∧
    h1 = (calloc_mergable_or_throw h (L * 2 ^ s)).2 := by
  unfold weight_parameters.ctor at hc
  split at hc
  · rename_i hs
    simp only [Option.some.injEq, Prod.mk.injEq] at hc
    rw [mask_no_overflow hL hov, stride_no_overflow hs, shift_no_overflow hov] at hc
    exact ⟨hs, hc.1.symm, hc.2.symm⟩
  · exact absurd hc (by simp)

theorem dense_ctor_ok {W : Type} [Zero W] {L s ss : Nat} {h h1 : Heap W}
    {w : weight_parameters} (hc : weight_parameters.ctor L s ss h = some (w, h1))
    (hL : 1 ≤ L) (hov : L * 2 ^ s < 2 ^ 64) : dense_ok w h1 := by
  obtain ⟨_, rfl, rfl⟩ := dense_ctor_spec hc hL hov
  have hpos : 1 ≤ L * 2 ^ s := Nat.mul_pos hL (Nat.pos_pow_of_pos s (by decide))
  refine ⟨rfl, ?_, L * 2 ^ s, ?_, ?_⟩
  · show L * 2 ^ s - 1 < 2 ^ 64
    omega
  · simp [calloc_mergable_or_throw]
  · show L * 2 ^ s - 1 < L * 2 ^ s
    omega

/-- The store the sparse constructor produces when nothing wraps. -/
theorem sparse_ctor_spec {W : Type} {L s ss : Nat} {sp : sparse_weight_parameters W}
    (hc : sparse_weight_parameters.ctor L s ss = some sp)
    (hL : 1 ≤ L) (hov : L * 2 ^ s < 2 ^ 64) :
    s < 32 ∧
    sp = { _map := [], _weight_mask := L * 2 ^ s - 1, _stride_shift := s, _stride := 2 ^ s,
           _seeded := false, _delete := false, fun_ := none, set_struct := ss } := by
  unfold sparse_weight_parameters.ctor at hc
  split at hc
  · rename_i hs
    simp only [Option.some.injEq] at hc
    rw [mask_no_overflow hL hov, stride_no_overflow hs] at hc
    exact ⟨hs, hc.symm⟩
  · exact absurd hc (by simp)

theorem dense_8_1_ctor :
    weight_parameters.ctor 8 1 0 (Heap.empty : Heap ℚ) = some (dense_8_1, dense_8_1_heap) := by
  simp [weight_parameters.ctor, dense_8_1, dense_8_1_heap, calloc_mergable_or_throw, Heap.empty,
    u64, u32]

theorem sparse_8_1_ctor : sparse_weight_parameters.ctor 8 1 0 = some sparse_8_1 := by
  simp [sparse_weight_parameters.ctor, sparse_8_1, u64, u32]

theorem dense_advance_begin (w : weight_parameters) (n : Nat) (lay : dense_layout w n) :
    ∀ k, k ≤ n →
      w.begin.advance k = ⟨⟨w._begin.block, k * w._stride⟩, k, w._stride⟩ := by
  intro k
  induction k with
  | zero =>
    intro _
    have hb : w._begin = ⟨w._begin.block, 0⟩ := by
      rcases hw : w._begin with ⟨b, o⟩
      have := lay.base
      rw [hw] at this
      simp only at this
      simp [this]
    simp only [weights_iterator.advance, weight_parameters.begin, Nat.zero_mul]
    rw [← hb]
  | succ k ih =>
    intro hk
    have hle : (k + 1) * w._stride ≤ n * w._stride := Nat.mul_le_mul_right _ hk
    have h1 : k * w._stride + w._stride < 2 ^ 64 := by
      have : (k + 1) * w._stride = k * w._stride + w._stride := by ring
      have := lay.bound
      omega
    have h2 : k + 1 < 2 ^ 64 := by
      have : n ≤ n * w._stride := Nat.le_mul_of_pos_right n lay.stride_pos
      have := lay.bound
      omega
    have h3 : (k + 1) * w._stride = k * w._stride + w._stride := by ring
    simp only [weights_iterator.advance, ih (Nat.le_of_succ_le hk), weights_iterator.next, Ptr.add,
      u64_of_lt h1, u64_of_lt h2, h3]

theorem dense_end_current (w : weight_parameters) (n : Nat) (lay : dense_layout w n) :
    w.end_._current = ⟨w._begin.block, n * w._stride⟩ := by
  have hc := lay.cover
  have hb := lay.bound
  have hm : w._weight_mask < 2 ^ 64 := by omega
  have hm1 : w._weight_mask + 1 < 2 ^ 64 := by omega
  simp only [weight_parameters.end_, Ptr.add, lay.base, Nat.zero_add, u64_of_lt hm, u64_of_lt hm1]
  rw [hc]

theorem dense_ne_end (w : weight_parameters) (n : Nat) (lay : dense_layout w n) (k : Nat)
    (hk : k ≤ n) : (w.begin.advance k).ne w.end_ = decide (k ≠ n) := by
  have hpos := lay.stride_pos
  simp only [weights_iterator.ne, dense_advance_begin w n lay k hk, dense_end_current w n lay]
  congr 1
  simp only [ne_eq, Ptr.mk.injEq, true_and, eq_iff_iff]
  constructor
  · intro h1 h2
    exact h1 (by rw [h2])
  · intro h1 h2
    exact h1 (Nat.eq_of_mul_eq_mul_right hpos h2)

/-! ## Zeroing a field -/

theorem dense_set_zero_loop_spec {W : Type} [Zero W] (w : weight_parameters) (n : Nat)
    (lay : dense_layout w n) (offset : Nat) (ho : offset < w._stride) (sz : Nat)
    (hsz : n * w._stride ≤ sz) :
    ∀ (m k : Nat) (h : Heap W) (fuel : Nat), k + m = n → m < fuel →
      h.size w._begin.block = some sz →
      ∃ h1, weight_parameters.set_zero_loop w offset fuel (w.begin.advance k) h = some h1 ∧
        h1.size = h.size ∧ h1.maps = h.maps ∧ h1.next = h.next ∧ h1.calls = h.calls ∧
        (∀ b o, (b = w._begin.block ∧ ∃ j, k ≤ j ∧ j < n ∧ o = j * w._stride + offset) →
          h1.mem b o = 0) ∧
        (∀ b o, ¬ (b = w._begin.block ∧ ∃ j, k ≤ j ∧ j < n ∧ o = j * w._stride + offset) →
          h1.mem b o = h.mem b o) := by
  intro m
  induction m with
  | zero =>
    intro k h fuel hk hf _
    obtain ⟨f, rfl⟩ : ∃ f, fuel = f + 1 := ⟨fuel - 1, by omega⟩
    have hkn : k = n := by omega
    refine ⟨h, ?_, rfl, rfl, rfl, rfl, ?_, ?_⟩
    · subst hkn
      simp [weight_parameters.set_zero_loop, dense_ne_end w k lay k (le_refl _)]
    · rintro b o ⟨_, j, h1, h2, _⟩
      omega
    · intro b o _
      rfl
  | succ m ih =>
    intro k h fuel hk hf hs
    obtain ⟨f, rfl⟩ : ∃ f, fuel = f + 1 := ⟨fuel - 1, by omega⟩
    have hkn : k < n := by omega
    have hadv := dense_advance_begin w n lay k (by omega)
    have hlt : k * w._stride + offset < n * w._stride := by
      have : (k + 1) * w._stride ≤ n * w._stride := Nat.mul_le_mul_right _ hkn
      have h3 : (k + 1) * w._stride = k * w._stride + w._stride := by ring
      omega
    have hb := lay.bound
    have hptr : (w.begin.advance k).deref.add offset =
        ⟨w._begin.block, k * w._stride + offset⟩ := by
      simp only [weights_iterator.deref, hadv, Ptr.add]
      rw [u64_of_lt (by omega)]
    have hw := Heap.write_of_size h ⟨w._begin.block, k * w._stride + offset⟩ 0 sz hs
      (show k * w._stride + offset < sz by omega)
    obtain ⟨h2, hloop, hsize, hmaps, hnext, hcalls, hzero, hkeep⟩ :=
      ih (k + 1) { h with mem := h.mem.set w._begin.block (k * w._stride + offset) 0 } f
        (by omega) (by omega) hs
    refine ⟨h2, ?_, hsize, hmaps, hnext, hcalls, ?_, ?_⟩
    · rw [weight_parameters.set_zero_loop, dense_ne_end w n lay k (by omega), hptr]
      simp only [ne_eq, Nat.ne_of_lt hkn, not_false_eq_true, decide_True, if_true, hw]
      exact hloop
    · rintro b o ⟨hbk, j, hj1, hj2, hj3⟩
      by_cases hjk : j = k
      · by_cases hin : b = w._begin.block ∧ ∃ j, k + 1 ≤ j ∧ j < n ∧ o = j * w._stride + offset
        · exact hzero b o hin
        · rw [hkeep b o hin]
          simp [Mem.set, hbk, hj3, hjk]
      · exact hzero b o ⟨hbk, j, by omega, hj2, hj3⟩
    · intro b o hnot
      have hnot2 : ¬ (b = w._begin.block ∧
          ∃ j, k + 1 ≤ j ∧ j < n ∧ o = j * w._stride + offset) := by
        rintro ⟨hbk, j, hj1, hj2, hj3⟩
        exact hnot ⟨hbk, j, by omega, hj2, hj3⟩
      rw [hkeep b o hnot2]
      simp only [Mem.set]
      split
      · rename_i hc
        exact absurd ⟨hc.1, k, le_refl _, hkn, hc.2⟩ hnot
      · rfl

theorem sparse_set_zero_loop_spec {W : Type} [Zero W] (offset : Nat) :
    ∀ (m : weight_map) (h : Heap W),
      (∀ e ∈ m, ∃ n, h.size (e.2.add offset).block = some n ∧ (e.2.add offset).off < n) →
      ∃ h1, sparse_weight_parameters.set_zero_loop offset m h = some h1 ∧
        h1.size = h.size ∧ h1.maps = h.maps ∧ h1.next = h.next ∧ h1.calls = h.calls ∧
        (∀ b o, (∃ e ∈ m, e.2.add offset = ⟨b, o⟩) → h1.mem b o = 0) ∧
        (∀ b o, ¬ (∃ e ∈ m, e.2.add offset = ⟨b, o⟩) → h1.mem b o = h.mem b o) := by
  intro m
  induction m with
  | nil =>
    intro h _
    exact ⟨h, rfl, rfl, rfl, rfl, rfl, by simp, by simp⟩
  | cons a t ih =>
    intro h hv
    obtain ⟨n, hn, hlt⟩ := hv a (List.mem_cons_self _ _)
    have hw := Heap.write_of_size h (a.2.add offset) 0 n hn hlt
    obtain ⟨h2, hloop, hsize, hmaps, hnext, hcalls, hzero, hkeep⟩ :=
      ih { h with mem := h.mem.set (a.2.add offset).block (a.2.add offset).off 0 }
        (fun e he => hv e (List.mem_cons_of_mem _ he))
    refine ⟨h2, ?_, hsize, hmaps, hnext, hcalls, ?_, ?_⟩
    · simp only [sparse_weight_parameters.set_zero_loop, hw]
      exact hloop
    · rintro b o ⟨e, he, hp⟩
      by_cases hin : ∃ e ∈ t, e.2.add offset = ⟨b, o⟩
      · exact hzero b o hin
      · rw [hkeep b o hin]
        rcases List.mem_cons.1 he with rfl | het
        · simp [Mem.set, hp]
        · exact absurd ⟨e, het, hp⟩ hin
    · intro b o hnot
      have hnot2 : ¬ ∃ e ∈ t, e.2.add offset = ⟨b, o⟩ := by
        rintro ⟨e, he, hp⟩
        exact hnot ⟨e, List.mem_cons_of_mem _ he, hp⟩
      rw [hkeep b o hnot2]
      simp only [Mem.set]
      split
      · rename_i hc
        refine absurd ⟨a, List.mem_cons_self _ _, ?_⟩ hnot
        rcases hq : a.2.add offset with ⟨qb, qo⟩
        rw [hq] at hc
        simp only at hc
        simp [hc.1, hc.2]
      · rfl

theorem materialise_heap {W : Type} [Zero W] (sp : sparse_weight_parameters W)
    (T : sparse_callback W) (h : Heap W) (k : Nat) (hk : map_find sp._map k = []) :
    ((sp.set_default T).materialise h k).2 =
      (calloc_mergable_or_throw h sp._stride).2.invoke
        ⟨⟨h.next, 0⟩, k, u64 (k <<< sp._stride_shift), sp._stride, sp.set_struct⟩
        (T ⟨⟨(k, ⟨h.next, 0⟩) :: sp._map, true⟩, sp._stride⟩ (u64 (k <<< sp._stride_shift))
          sp._stride sp.set_struct) := by
  have hm := map_find_insert sp._map k ⟨h.next, 0⟩ hk
  have hf : map_find ((k, (⟨h.next, 0⟩ : Ptr)) :: sp._map) k = (k, ⟨h.next, 0⟩) :: sp._map := by
    simp [map_find]
  simp only [sparse_weight_parameters.materialise, sparse_weight_parameters.set_default,
    calloc_mergable_or_throw, hm.1, hf, map_second, map_first, Option.getD_some]

/-- C4. Sparse lazy default ordering. Registering a callback with
`set_default<T>()` only records it: the map and every other member are as
before, and the call touches no memory and invokes nothing (it takes and
yields no heap). Afterwards an access, by `operator[]` or by `strided_index`,
whose bucket is absent allocates a zero-filled block of `_stride` fields,
inserts it under the bucket key, and invokes `T` exactly once (one entry is
appended to the trace) on that zero-filled bucket with the arguments
`(key << _stride_shift, _stride, set_struct)`; the heap that comes back with
the field address already holds the callback's effect. An access whose bucket
is present returns its field and leaves store and heap as they were, so
invokes nothing. Scenario B of the spec evaluates to the reads 0, 1.0, 0. -/
theorem sparse_lazy_default {W : Type} [Zero W] (sp : sparse_weight_parameters W)
    (T : sparse_callback W) (h : Heap W) (i b : Nat) :
    sp.set_default T = { sp with fun_ := some T } ∧
    (map_find sp._map (sp.bucket_key i) = [] →
      (sp.set_default T).subscript h i =
        ((⟨h.next, 0⟩ : Ptr).add (sp.bucket_offset i),
         { sp.set_default T with _map := (sp.bucket_key i, ⟨h.next, 0⟩) :: sp._map },
         (calloc_mergable_or_throw h sp._stride).2.invoke
           ⟨⟨h.next, 0⟩, sp.bucket_key i, u64 (sp.bucket_key i <<< sp._stride_shift), sp._stride,
            sp.set_struct⟩
           (T ⟨⟨(sp.bucket_key i, ⟨h.next, 0⟩) :: sp._map, true⟩, sp._stride⟩
             (u64 (sp.bucket_key i <<< sp._stride_shift)) sp._stride sp.set_struct)) ∧
      ((sp.set_default T).subscript h i).2.2.calls =
        h.calls ++ [⟨⟨h.next, 0⟩, sp.bucket_key i, u64 (sp.bucket_key i <<< sp._stride_shift),
          sp._stride, sp.set_struct⟩]) ∧
    (map_find sp._map b = [] →
      (sp.set_default T).strided_index h b =
        (⟨h.next, 0⟩,
         { sp.set_default T with _map := (b, ⟨h.next, 0⟩) :: sp._map },
         (calloc_mergable_or_throw h sp._stride).2.invoke
           ⟨⟨h.next, 0⟩, b, u64 (b <<< sp._stride_shift), sp._stride, sp.set_struct⟩
           (T ⟨⟨(b, ⟨h.next, 0⟩) :: sp._map, true⟩, sp._stride⟩ (u64 (b <<< sp._stride_shift)) sp._stride
             sp.set_struct)) ∧
      ((sp.set_default T).strided_index h b).2.2.calls =
        h.calls ++ [⟨⟨h.next, 0⟩, b, u64 (b <<< sp._stride_shift), sp._stride, sp.set_struct⟩]) ∧
    ((calloc_mergable_or_throw h sp._stride).2.size h.next = some sp._stride ∧
      ∀ o, (calloc_mergable_or_throw h sp._stride).2.mem h.next o = 0) ∧
    (∀ e rest, map_find sp._map (sp.bucket_key i) = e :: rest →
      (sp.set_default T).subscript h i =
        (e.2.add (sp.bucket_offset i), sp.set_default T, h)) ∧
    (∀ e rest, map_find sp._map b = e :: rest →
      (sp.set_default T).strided_index h b = (e.2, sp.set_default T, h)) ∧
    scenario_B = some (0, 1, 0) := by
  refine ⟨rfl, ?_, ?_, ?_, ?_, ?_, by decide⟩
  · intro hk
    have hsub := sparse_subscript_absent (sp.set_default T) h i hk
    have hheap := materialise_heap sp T h (sp.bucket_key i) hk
    have hA : (sp.set_default T).subscript h i = _ := hsub.trans (by
      rw [show (sp.set_default T).bucket_key i = sp.bucket_key i from rfl, hheap])
    refine ⟨hA, ?_⟩
    rw [hA]
    simp [Heap.invoke, calloc_mergable_or_throw]
  · intro hk
    have hheap := materialise_heap sp T h b hk
    have hmap := materialise_map (sp.set_default T) h b hk
    have hA : (sp.set_default T).strided_index h b =
        (⟨h.next, 0⟩,
         { sp.set_default T with _map := (b, ⟨h.next, 0⟩) :: sp._map },
         (calloc_mergable_or_throw h sp._stride).2.invoke
           ⟨⟨h.next, 0⟩, b, u64 (b <<< sp._stride_shift), sp._stride, sp.set_struct⟩
           (T ⟨⟨(b, ⟨h.next, 0⟩) :: sp._map, true⟩, sp._stride⟩ (u64 (b <<< sp._stride_shift)) sp._stride
             sp.set_struct)) := by
      simp only [sparse_weight_parameters.strided_index,
        show (sp.set_default T)._map = sp._map from rfl, hk]
      rw [hheap, hmap]
      simp only [map_find, if_true, map_second]
      rfl
    refine ⟨hA, ?_⟩
    rw [hA]
    simp [Heap.invoke, calloc_mergable_or_throw]
  · simp [calloc_mergable_or_throw]
  · intro e rest hk
    exact sparse_subscript_present (sp.set_default T) h i e rest hk
  · intro e rest hk
    simp only [sparse_weight_parameters.strided_index,
      show (sp.set_default T)._map = sp._map from rfl, hk]

/-! ## Aliases -/

/-- C6, evaluated. The dense copy shares the block of its source: a value
written through either store is read through the other. The sparse copy holds
a copy of the map, so a bucket materialised through one store after the copy
is unknown to the other: with `b` the copy of Sparse(8, 0), writing 1.0
through `b[5]` and reading `a[5]` gives 0, and writing 2.0 through `a[6]` and
reading `b[6]` gives 0. -/
theorem alias_write_visibility :
    dense_alias_scenario = some (1, 2) ∧ sparse_alias_scenario = some (0, 0) := by
  constructor <;> decide

/-- C7, evaluated. `shallow_copy` gives the target the mask and the stride
shift of its source, sets `seeded`, and leaves the source alone (it is passed
by constant reference and is no result of the call); it does not assign
`_stride`, which keeps the value the target had. After
`b.shallow_copy(a)` with `a` = Dense(8, 1) and `b` = Dense(4, 2), and likewise
for the sparse stores, `b` has stride shift 1 and stride 4, while `a` has
stride 2. -/
theorem shallow_copy_parameters {W : Type} (a b : weight_parameters)
    (sa sb : sparse_weight_parameters W) :
    ((b.shallow_copy a).mask = a.mask ∧ (b.shallow_copy a).stride_shift = a.stride_shift ∧
      (b.shallow_copy a).seeded = true ∧ (b.shallow_copy a)._stride = b._stride) ∧
    ((sb.shallow_copy sa).mask = sa.mask ∧ (sb.shallow_copy sa).stride_shift = sa.stride_shift ∧
      (sb.shallow_copy sa).seeded = true ∧ (sb.shallow_copy sa)._stride = sb._stride) ∧
    ((dense_4_2.shallow_copy dense_8_1).stride_shift = 1 ∧
      (dense_4_2.shallow_copy dense_8_1)._stride = 4 ∧ dense_8_1._stride = 2) ∧
    ((sparse_4_2.shallow_copy sparse_8_1).stride_shift = 1 ∧
      (sparse_4_2.shallow_copy sparse_8_1)._stride = 4 ∧ sparse_8_1._stride = 2) :=
  ⟨⟨rfl, rfl, rfl, rfl⟩, ⟨rfl, rfl, rfl, rfl⟩, ⟨rfl, rfl, rfl⟩, ⟨rfl, rfl, rfl⟩⟩

/-! ## Dense iteration from construction -/

theorem dense_ctor_layout {W : Type} [Zero W] {L s ss : Nat} {h h1 : Heap W}
    {w : weight_parameters} (hc : weight_parameters.ctor L s ss h = some (w, h1))
    (hL : 1 ≤ L) (hov : L * 2 ^ s < 2 ^ 64) : dense_layout w L := by
  obtain ⟨_, rfl, rfl⟩ := dense_ctor_spec hc hL hov
  have hpos : 1 ≤ L * 2 ^ s := Nat.mul_pos hL (Nat.pos_pow_of_pos s (by decide))
  refine ⟨rfl, Nat.pos_pow_of_pos s (by decide), ?_, hov⟩
  show L * 2 ^ s - 1 + 1 = L * 2 ^ s
  omega

/-- C9. Dense iteration and stride alignment. For a dense store created with
length `L ≥ 1` and stride shift `s`, `L * 2^s < 2^64`: the iterator obtained
from `begin()` by `L` applications of `operator++` equals `end()`, and after
fewer applications it does not; the `k`-th position dereferences to offset
`k * 2^s` of the backing block, so consecutive bucket addresses differ by
exactly `2^s` fields and addresses increase strictly. -/
theorem dense_iteration {W : Type} [Zero W] (L s ss : Nat) (h h1 : Heap W)
    (w : weight_parameters) (hc : weight_parameters.ctor L s ss h = some (w, h1))
    (hL : 1 ≤ L) (hov : L * 2 ^ s < 2 ^ 64) :
    (w.begin.advance L).eq w.end_ = true ∧
    (∀ k, k < L → (w.begin.advance k).eq w.end_ = false) ∧
    w.begin.deref = w._begin ∧
    (∀ k, k ≤ L → (w.begin.advance k).deref = ⟨w._begin.block, k * 2 ^ s⟩) ∧
    (∀ k, k < L →
      (w.begin.advance (k + 1)).deref.off = (w.begin.advance k).deref.off + 2 ^ s) ∧
    (∀ j k, j < k → k ≤ L →
      (w.begin.advance j).deref.block = (w.begin.advance k).deref.block ∧
      (w.begin.advance j).deref.off < (w.begin.advance k).deref.off) := by
  have lay := dense_ctor_layout hc hL hov
  have hst : w._stride = 2 ^ s := by
    obtain ⟨_, rfl, _⟩ := dense_ctor_spec hc hL hov
    rfl
  have hpos : 0 < 2 ^ s := Nat.pos_pow_of_pos s (by decide)
  have hne := dense_ne_end w L lay
  have hadv := dense_advance_begin w L lay
  have hderef : ∀ k, k ≤ L → (w.begin.advance k).deref = ⟨w._begin.block, k * 2 ^ s⟩ := by
    intro k hk
    rw [weights_iterator.deref, hadv k hk, hst]
  have heq : ∀ k, k ≤ L → (w.begin.advance k).eq w.end_ = decide (k = L) := by
    intro k hk
    have h1 := hne k hk
    simp only [weights_iterator.ne, weights_iterator.eq] at h1 ⊢
    by_cases hkl : k = L
    · simpa [hkl] using h1
    · simpa [hkl] using h1
  refine ⟨?_, ?_, rfl, hderef, ?_, ?_⟩
  · rw [heq L (le_refl _)]
    simp
  · intro k hk
    rw [heq k (le_of_lt hk)]
    simp [Nat.ne_of_lt hk]
  · intro k hk
    rw [hderef k (le_of_lt hk), hderef (k + 1) hk]
    show (k + 1) * 2 ^ s = k * 2 ^ s + 2 ^ s
    ring
  · intro j k hjk hk
    rw [hderef j (by omega), hderef k hk]
    exact ⟨rfl, Nat.mul_lt_mul_of_pos_right hjk hpos⟩

/-- Witness for C9: Dense(8, 1) on the empty heap. -/
theorem dense_iteration_witness :
    (dense_8_1.begin.advance 8).eq dense_8_1.end_ = true ∧
    (∀ k, k < 8 → (dense_8_1.begin.advance k).eq dense_8_1.end_ = false) ∧
    (dense_8_1.begin.advance 3).deref = ⟨1, 6⟩ :=
  have hw := dense_iteration 8 1 0 (Heap.empty : Heap ℚ) dense_8_1_heap dense_8_1 dense_8_1_ctor
    (by decide) (by decide)
  ⟨hw.1, hw.2.1, hw.2.2.2.1 3 (by decide)⟩

/-! ## The index an iterator reports -/

theorem dense_advance_index (it : weights_iterator) (k : Nat) (h0 : it._idx = 0) :
    (it.advance k).index = u64 k := by
  induction k with
  | zero => simp [weights_iterator.advance, weights_iterator.index, h0, u64]
  | succ k ih =>
    simp only [weights_iterator.advance, weights_iterator.next, weights_iterator.index] at ih ⊢
    rw [ih]
    simp [u64]

/-- C10, against the claim: on Dense(8, 1), whose stride is 2, the iterator one
step after `begin()` reports `index()` 1, not `1 * 2`. -/
theorem dense_index_counterexample :
    dense_8_1._stride = 2 ∧ (dense_8_1.begin.advance 1).index = 1 ∧
      (dense_8_1.begin.advance 1).index ≠ 1 * dense_8_1._stride := by
  decide

/-- C10, amended. On every dense store the iterator obtained from `begin()`
by `k` applications of `operator++` reports `index() = k`, the bucket number
(as a `size_t`, so `k` itself for `k < 2^64`), whatever the stride. A sparse
iterator whose reference is bound to a live map iterator positioned on the
entry stored under key `b` reports `index() = b`; such is the iterator that
`operator[]` and `strided_index` hand to the callback when they materialise
the bucket of an absent key `key` (with `p` the address of the new block). -/
theorem iterator_index {W : Type} (w : weight_parameters) (sp : sparse_weight_parameters W)
    (k key : Nat) (p : Ptr) :
    (w.begin.advance k).index = u64 k ∧
    (k < 2 ^ 64 → (w.begin.advance k).index = k) ∧
    (∀ (it : sparse_weights_iterator) b q rest, it._iter = ⟨(b, q) :: rest, true⟩ →
      it.index = some b) ∧
    (map_find sp._map key = [] →
      sparse_weights_iterator.index
        ⟨⟨map_find (map_insert sp._map (key, p)) key, true⟩, sp._stride⟩ = some key) := by
  have h1 := dense_advance_index w.begin k rfl
  refine ⟨h1, ?_, ?_, ?_⟩
  · intro hk
    rw [h1, u64_of_lt hk]
  · intro it b q rest hit
    simp [sparse_weights_iterator.index, hit, map_first]
  · intro hk
    simp [sparse_weights_iterator.index, (map_find_insert sp._map key p hk).2, map_first]

/-! ## Dense default initialisation -/

theorem dense_invocations_cons {W : Type} (T : dense_callback W) (w : weight_parameters)
    (k : Nat) (ks : List Nat) (h : Heap W) :
    dense_invocations T w (k :: ks) h =
      dense_invocations T w ks
        (h.invoke ⟨⟨w._begin.block, k * w._stride⟩, k, k * w._stride, w._stride, w.set_struct⟩
          (T ⟨⟨w._begin.block, k * w._stride⟩, k, w._stride⟩ (k * w._stride) w._stride
            w.set_struct)) := rfl

theorem dense_invocations_frame {W : Type} (T : dense_callback W) (w : weight_parameters) :
    ∀ (ks : List Nat) (h : Heap W),
      (dense_invocations T w ks h).calls =
        h.calls ++ ks.map (fun k =>
          (⟨⟨w._begin.block, k * w._stride⟩, k, k * w._stride, w._stride, w.set_struct⟩ : Call)) ∧
      (dense_invocations T w ks h).size = h.size ∧
      (dense_invocations T w ks h).next = h.next := by
  intro ks
  induction ks with
  | nil =>
    intro h
    simp [dense_invocations]
  | cons k ks ih =>
    intro h
    rw [dense_invocations_cons]
    obtain ⟨h1, h2, h3⟩ := ih (h.invoke
      ⟨⟨w._begin.block, k * w._stride⟩, k, k * w._stride, w._stride, w.set_struct⟩
      (T ⟨⟨w._begin.block, k * w._stride⟩, k, w._stride⟩ (k * w._stride) w._stride w.set_struct))
    refine ⟨?_, ?_, ?_⟩
    · rw [h1]
      simp [Heap.invoke]
    · rw [h2]
      rfl
    · rw [h3]
      rfl

theorem dense_set_default_loop_spec {W : Type} (T : dense_callback W) (w : weight_parameters)
    (n : Nat) (lay : dense_layout w n) :
    ∀ (m k : Nat) (h : Heap W) (fuel : Nat), k + m = n → m < fuel →
      weight_parameters.set_default_loop T w fuel (w.begin.advance k) (k * w._stride) h =
        some (dense_invocations T w (List.range' k m) h) := by
  intro m
  induction m with
  | zero =>
    intro k h fuel hk hf
    obtain ⟨f, rfl⟩ : ∃ f, fuel = f + 1 := ⟨fuel - 1, by omega⟩
    have hkn : k = n := by omega
    subst hkn
    simp [weight_parameters.set_default_loop, dense_ne_end w k lay k (le_refl _),
      dense_invocations]
  | succ m ih =>
    intro k h fuel hk hf
    obtain ⟨f, rfl⟩ : ∃ f, fuel = f + 1 := ⟨fuel - 1, by omega⟩
    have hkn : k < n := by omega
    have hadv := dense_advance_begin w n lay k (by omega)
    have hb := lay.bound
    have hle : (k + 1) * w._stride ≤ n * w._stride := Nat.mul_le_mul_right _ hkn
    have h3 : (k + 1) * w._stride = k * w._stride + w._stride := by ring
    have hi : u64 (k * w._stride + w._stride) = (k + 1) * w._stride := by
      rw [u64_of_lt (by omega), h3]
    have hnext : (w.begin.advance k).next = w.begin.advance (k + 1) := rfl
    rw [weight_parameters.set_default_loop, dense_ne_end w n lay k (by omega)]
    simp only [ne_eq, Nat.ne_of_lt hkn, not_false_eq_true, decide_True, if_true, hi, hnext]
    rw [ih (k + 1) _ f (by omega) (by omega), List.range'_succ, dense_invocations_cons]
    simp only [weights_iterator.deref, weights_iterator.index, hadv]

/-- C8, against the claim: Dense(length = 2^63, strideShift = 1) is created
(`2^63 << 1` wraps to 0, the mask to `2^64 - 1`), its `end()` coincides with
its `begin()`, and `set_default<T>()` returns without invoking `T`, for every
`T`: no invocation, where the claim says `2^63`. -/
theorem dense_set_default_counterexample :
    ∃ w h1, weight_parameters.ctor (2 ^ 63) 1 0 (Heap.empty : Heap ℚ) = some (w, h1) ∧
      w.mask = 2 ^ 64 - 1 ∧ w.begin.eq w.end_ = true ∧
      ∀ T : dense_callback ℚ, ∃ h2, w.set_default T h1 = some h2 ∧ h2.calls = [] := by
  refine ⟨_, _, rfl, by decide, by decide,
    fun T => ⟨(calloc_mergable_or_throw (Heap.empty : Heap ℚ) 0).2, ?_, rfl⟩⟩
  rw [weight_parameters.set_default, weight_parameters.set_default_loop]
  rfl

/-- C8, amended. For a dense store created with length `L ≥ 1` and stride
shift `s` such that `L * 2^s < 2^64`, `set_default<T>()` completes and does
exactly what `L` successive invocations of `T` do, one per bucket
`k = 0, …, L-1` in that order, the `k`-th with an iterator positioned at
offset `k * 2^s` of the backing block (reporting `index()` `k`) and the
arguments `(k * 2^s, 2^s, set_struct)`: the trace grows by exactly these `L`
entries, and no block is allocated or released. -/
theorem dense_set_default_calls {W : Type} [Zero W] (L s ss : Nat) (h h1 : Heap W)
    (w : weight_parameters) (hc : weight_parameters.ctor L s ss h = some (w, h1))
    (hL : 1 ≤ L) (hov : L * 2 ^ s < 2 ^ 64) (T : dense_callback W) :
    w.set_default T h1 = some (dense_invocations T w (List.range L) h1) ∧
    (dense_invocations T w (List.range L) h1).calls =
      h1.calls ++ (List.range L).map (fun k =>
        (⟨⟨w._begin.block, k * 2 ^ s⟩, k, k * 2 ^ s, 2 ^ s, ss⟩ : Call)) ∧
    ((dense_invocations T w (List.range L) h1).calls.length = h1.calls.length + L) ∧
    (dense_invocations T w (List.range L) h1).size = h1.size := by
  have lay := dense_ctor_layout hc hL hov
  have hst : w._stride = 2 ^ s ∧ w.set_struct = ss := by
    obtain ⟨_, rfl, _⟩ := dense_ctor_spec hc hL hov
    exact ⟨rfl, rfl⟩
  have hn : L ≤ L * w._stride := Nat.le_mul_of_pos_right L lay.stride_pos
  have hb := lay.bound
  have hloop := dense_set_default_loop_spec T w L lay L 0 h1 (2 ^ 64 + 1) (by omega) (by omega)
  obtain ⟨hcalls, hsize, _⟩ := dense_invocations_frame T w (List.range L) h1
  rw [hst.1, hst.2] at hcalls
  refine ⟨?_, hcalls, ?_, hsize⟩
  · rw [List.range_eq_range']
    simpa [weight_parameters.set_default, weights_iterator.advance] using hloop
  · rw [hcalls]
    simp

/-- Witness for C8 (amended): Dense(8, 1) on the empty heap; the trace after
`set_default<T>()` has 8 entries. -/
theorem dense_set_default_calls_witness :
    ∃ h2, dense_8_1.set_default dense_set_one dense_8_1_heap = some h2 ∧ h2.calls.length = 8 :=
  have hw := dense_set_default_calls 8 1 0 (Heap.empty : Heap ℚ) dense_8_1_heap dense_8_1
    dense_8_1_ctor (by decide) (by decide) dense_set_one
  ⟨_, hw.1, hw.2.2.1⟩

/-! ## Dense and sparse stores side by side -/

theorem sim_slot {W : Type} [Zero W] {L st : Nat} {w : weight_parameters} {hd : Heap W}
    {sp : sparse_weight_parameters W} {hs : Heap W} (sim : store_sim L st w hd sp hs) (i : Nat) :
    i &&& w._weight_mask < L * st ∧ (i &&& w._weight_mask) / st < L ∧
      (i &&& w._weight_mask) % st < st ∧
      sp.bucket_key i = (i &&& w._weight_mask) / st ∧
      sp.bucket_offset i = (i &&& w._weight_mask) % st := by
  have hle : i &&& w._weight_mask ≤ w._weight_mask := Nat.and_le_right
  have hm := sim.d_mask
  have hlt : i &&& w._weight_mask < L * st := by omega
  have hq : (i &&& w._weight_mask) / st < L := by
    rw [Nat.div_lt_iff_lt_mul sim.st_pos]
    exact hlt
  have hq53 : (i &&& w._weight_mask) / st < 2 ^ 53 := lt_of_lt_of_le hq sim.few
  refine ⟨hlt, hq, Nat.mod_lt _ sim.st_pos, ?_, ?_⟩
  · simp only [sparse_weight_parameters.bucket_key, sim.s_mask, sim.s_stride]
    rw [floor_of_lt hq53, u64_of_lt (lt_trans hq53 (by decide))]
  · simp only [sparse_weight_parameters.bucket_offset, sim.s_mask, sim.s_stride]

theorem sim_dense_ok {W : Type} [Zero W] {L st : Nat} {w : weight_parameters}
    {hd : Heap W} {sp : sparse_weight_parameters W} {hs : Heap W}
    (sim : store_sim L st w hd sp hs) : dense_ok w hd := by
  have hm := sim.d_mask
  have hb := sim.bound
  exact ⟨sim.d_base, by omega, L * st, sim.d_size, by omega⟩

theorem sim_materialise {W : Type} [Zero W] {L st : Nat} {w : weight_parameters}
    {hd : Heap W} {sp : sparse_weight_parameters W} {hs : Heap W}
    (sim : store_sim L st w hd sp hs) (k : Nat) :
    (sp.materialise hs k).2 = (calloc_mergable_or_throw hs st).2 := by
  simp only [sparse_weight_parameters.materialise, sim.s_fun, sim.s_stride]

/-- Under the relation, what the sparse `operator[]` returns. -/
theorem sim_subscript {W : Type} [Zero W] {L st : Nat} {w : weight_parameters}
    {hd : Heap W} {sp : sparse_weight_parameters W} {hs : Heap W}
    (sim : store_sim L st w hd sp hs) (i : Nat) :
    (map_find sp._map ((i &&& w._weight_mask) / st) = [] ∧
      sp.subscript hs i =
        (⟨hs.next, (i &&& w._weight_mask) % st⟩,
         { sp with _map := ((i &&& w._weight_mask) / st, ⟨hs.next, 0⟩) :: sp._map },
         (calloc_mergable_or_throw hs st).2)) ∨
    (∃ e rest, map_find sp._map ((i &&& w._weight_mask) / st) = e :: rest ∧
      sp.subscript hs i = (⟨e.2.block, (i &&& w._weight_mask) % st⟩, sp, hs)) := by
  obtain ⟨_, _, hr, hkey, hoff⟩ := sim_slot sim i
  have hr64 : (i &&& w._weight_mask) % st < 2 ^ 64 := by
    have := sim.bound
    have : st ≤ L * st := Nat.le_mul_of_pos_left st (by
      have := sim.d_mask
      by_contra hL
      have hL0 : L = 0 := by omega
      rw [hL0] at this
      omega)
    omega
  cases hk : map_find sp._map ((i &&& w._weight_mask) / st) with
  | nil =>
    left
    refine ⟨rfl, ?_⟩
    rw [sparse_subscript_absent sp hs i (by rw [hkey]; exact hk), hkey, hoff,
      sim_materialise sim]
    simp [Ptr.add, u64_of_lt hr64]
  | cons e rest =>
    right
    refine ⟨e, rest, rfl, ?_⟩
    rw [sparse_subscript_present sp hs i e rest (by rw [hkey]; exact hk), hoff]
    have hz := (sim.s_buckets e (map_find_head hk).1).1
    simp [Ptr.add, hz, u64_of_lt hr64]

theorem div_mod_unique {st x y : Nat} (hq : x / st = y / st) (hr : x % st = y % st) : x = y := by
  rw [← Nat.div_add_mod x st, ← Nat.div_add_mod y st, hq, hr]

theorem sim_read {W : Type} [Zero W] {L st : Nat} {w : weight_parameters} {hd : Heap W}
    {sp : sparse_weight_parameters W} {hs : Heap W} (sim : store_sim L st w hd sp hs) (i : Nat) :
    ∃ x sp1 hs1, w.load hd i = some x ∧ sp.load hs i = some (x, sp1, hs1) := by
  obtain ⟨hlt, _, hr, _, _⟩ := sim_slot sim i
  have hdl : w.load hd i = some (hd.mem w._begin.block (i &&& w._weight_mask)) := by
    rw [weight_parameters.load, dense_subscript_eq w hd (sim_dense_ok sim) i]
    exact Heap.read_of_size hd _ (L * st) sim.d_size hlt
  have hag := sim.agree _ hlt
  refine ⟨_, (sp.subscript hs i).2.1, (sp.subscript hs i).2.2, hdl, ?_⟩
  rcases sim_subscript sim i with ⟨hk, hsub⟩ | ⟨e, rest, hk, hsub⟩
  · simp only [sparse_weight_parameters.load, hsub]
    rw [Heap.read_of_size _ _ st (by simp [calloc_mergable_or_throw]) hr]
    simp only [sparse_value, sim.s_stride, hk] at hag
    simp [calloc_mergable_or_throw, hag]
  · have hsz := (sim.s_buckets e (map_find_head hk).1).2.1
    simp only [sparse_weight_parameters.load, hsub]
    rw [Heap.read_of_size hs ⟨e.2.block, (i &&& w._weight_mask) % st⟩ st hsz hr]
    simp only [sparse_value, sim.s_stride, hk] at hag
    simp [hag]

theorem sim_write {W : Type} [Zero W] {L st : Nat} {w : weight_parameters} {hd : Heap W}
    {sp : sparse_weight_parameters W} {hs : Heap W} (sim : store_sim L st w hd sp hs) (i : Nat)
    (v : W) :
    ∃ hd1 sp1 hs1, w.store hd i v = some hd1 ∧ sp.store hs i v = some (sp1, hs1) ∧
      store_sim L st w hd1 sp1 hs1 := by
  obtain ⟨hlt, _, hr, _, _⟩ := sim_slot sim i
  have hdw : w.store hd i v =
      some { hd with mem := hd.mem.set w._begin.block (i &&& w._weight_mask) v } := by
    rw [weight_parameters.store, dense_subscript_eq w hd (sim_dense_ok sim) i]
    exact Heap.write_of_size hd _ v (L * st) sim.d_size hlt
  rcases sim_subscript sim i with ⟨hk, hsub⟩ | ⟨e, rest, hk, hsub⟩
  · -- the bucket is materialised by the write
    have hsw : sp.store hs i v = some
        ({ sp with _map := ((i &&& w._weight_mask) / st, ⟨hs.next, 0⟩) :: sp._map },
         { (calloc_mergable_or_throw hs st).2 with
           mem := (calloc_mergable_or_throw hs st).2.mem.set hs.next
             ((i &&& w._weight_mask) % st) v }) := by
      simp only [sparse_weight_parameters.store, hsub]
      rw [Heap.write_of_size _ _ v st (by simp [calloc_mergable_or_throw]) hr]
    refine ⟨_, _, _, hdw, hsw, ?_⟩
    refine { st_pos := sim.st_pos, bound := sim.bound, few := sim.few, d_base := sim.d_base,
             d_mask := sim.d_mask, d_stride := sim.d_stride, d_size := sim.d_size,
             s_mask := sim.s_mask, s_stride := sim.s_stride, s_fun := sim.s_fun,
             s_buckets := ?_, s_inj := ?_, agree := ?_ }
    · intro e he
      rcases List.mem_cons.1 he with rfl | he
      · simp [calloc_mergable_or_throw]
      · obtain ⟨h1, h2, h3⟩ := sim.s_buckets e he
        refine ⟨h1, ?_, ?_⟩
        · simp only [calloc_mergable_or_throw, Nat.ne_of_lt h3, if_false, h2]
        · simp only [calloc_mergable_or_throw]
          omega
    · intro e1 he1 e2 he2 hb
      rcases List.mem_cons.1 he1 with rfl | he1 <;> rcases List.mem_cons.1 he2 with rfl | he2
      · rfl
      · have := (sim.s_buckets e2 he2).2.2
        simp only at hb
        omega
      · have := (sim.s_buckets e1 he1).2.2
        simp only at hb
        omega
      · exact sim.s_inj e1 he1 e2 he2 hb
    · intro x hx
      have hag := sim.agree x hx
      simp only [sparse_value, sim.s_stride, map_find, Mem.set] at hag ⊢
      by_cases hq : (i &&& w._weight_mask) / st = x / st
      · rw [← hq, hk] at hag
        simp only [hq, if_true, true_and, calloc_mergable_or_throw]
        by_cases hxe : x = i &&& w._weight_mask
        · simp [hxe]
        · have hmod : ¬ x % st = (i &&& w._weight_mask) % st := fun hm =>
            hxe (div_mod_unique hq.symm hm)
          simp [hxe, hmod, hag]
      · have hxe : ¬ x = i &&& w._weight_mask := fun he => hq (by rw [he])
        simp only [hq, if_false, hxe, and_false]
        cases hf : map_find sp._map (x / st) with
        | nil =>
          rw [hf] at hag
          exact hag
        | cons e2 rest2 =>
          rw [hf] at hag
          have hlt2 := (sim.s_buckets e2 (map_find_head hf).1).2.2
          simp only [calloc_mergable_or_throw, Nat.ne_of_lt hlt2, false_and, if_false]
          exact hag
  · -- the bucket exists
    have hmem := (map_find_head hk).1
    have hkey := (map_find_head hk).2
    have hsz := (sim.s_buckets e hmem).2.1
    have hsw : sp.store hs i v = some
        (sp, { hs with mem := hs.mem.set e.2.block ((i &&& w._weight_mask) % st) v }) := by
      simp only [sparse_weight_parameters.store, hsub]
      rw [Heap.write_of_size hs ⟨e.2.block, (i &&& w._weight_mask) % st⟩ v st hsz hr]
    refine ⟨_, _, _, hdw, hsw, ?_⟩
    refine { st_pos := sim.st_pos, bound := sim.bound, few := sim.few, d_base := sim.d_base,
             d_mask := sim.d_mask, d_stride := sim.d_stride, d_size := sim.d_size,
             s_mask := sim.s_mask, s_stride := sim.s_stride, s_fun := sim.s_fun,
             s_buckets := sim.s_buckets, s_inj := sim.s_inj, agree := ?_ }
    intro x hx
    have hag := sim.agree x hx
    simp only [sparse_value, sim.s_stride, Mem.set] at hag ⊢
    by_cases hxe : x = i &&& w._weight_mask
    · subst hxe
      simp [hk]
    · simp only [hxe, and_false, if_false]
      cases hf : map_find sp._map (x / st) with
      | nil =>
        rw [hf] at hag
        exact hag
      | cons e2 rest2 =>
        rw [hf] at hag
        have hne : ¬ (e2.2.block = e.2.block ∧ x % st = (i &&& w._weight_mask) % st) := by
          rintro ⟨hb, hm⟩
          have hkeys := sim.s_inj e2 (map_find_head hf).1 e hmem hb
          rw [(map_find_head hf).2, hkey] at hkeys
          exact hxe (div_mod_unique hkeys hm)
        simp only [hne, if_false]
        exact hag

theorem sim_set_zero {W : Type} [Zero W] {L st : Nat} {w : weight_parameters}
    {hd : Heap W} {sp : sparse_weight_parameters W} {hs : Heap W}
    (sim : store_sim L st w hd sp hs) (k : Nat) (hk : k < st) :
    ∃ hd1 hs1, w.set_zero k hd = some hd1 ∧ sp.set_zero k hs = some hs1 ∧
      store_sim L st w hd1 sp hs1 := by
  have hst := sim.d_stride
  have hb := sim.bound
  have hpos := sim.st_pos
  have lay : dense_layout w L := ⟨sim.d_base, by rw [hst]; exact hpos,
    by rw [hst]; exact sim.d_mask, by rw [hst]; exact hb⟩
  have hLle : L ≤ L * st := Nat.le_mul_of_pos_right L hpos
  obtain ⟨hd1, hdl, hdsize, _, _, _, hdzero, hdkeep⟩ :=
    dense_set_zero_loop_spec w L lay k (by rw [hst]; exact hk) (L * st)
      (by rw [hst]) L 0 hd (2 ^ 64 + 1) (by omega) (by omega) sim.d_size
  have hk64 : k < 2 ^ 64 := by
    have : st ≤ L * st := Nat.le_mul_of_pos_left st (by
      have := sim.d_mask
      by_contra hL
      have hL0 : L = 0 := by omega
      rw [hL0] at this
      omega)
    omega
  have hptr : ∀ e ∈ sp._map, e.2.add k = ⟨e.2.block, k⟩ := by
    intro e he
    simp [Ptr.add, (sim.s_buckets e he).1, u64_of_lt hk64]
  obtain ⟨hs1, hsl, hssize, _, hsnext, _, hszero, hskeep⟩ :=
    sparse_set_zero_loop_spec k sp._map hs (by
      intro e he
      refine ⟨st, ?_, ?_⟩
      · rw [hptr e he]
        exact (sim.s_buckets e he).2.1
      · rw [hptr e he]
        exact hk)
  refine ⟨hd1, hs1, hdl, hsl, ?_⟩
  refine { st_pos := sim.st_pos, bound := sim.bound, few := sim.few, d_base := sim.d_base,
           d_mask := sim.d_mask, d_stride := sim.d_stride, d_size := by rw [hdsize]; exact sim.d_size,
           s_mask := sim.s_mask, s_stride := sim.s_stride, s_fun := sim.s_fun,
           s_buckets := ?_, s_inj := sim.s_inj, agree := ?_ }
  · intro e he
    rw [hssize, hsnext]
    exact sim.s_buckets e he
  · intro x hx
    have hag := sim.agree x hx
    have hxq : x / st < L := by
      rw [Nat.div_lt_iff_lt_mul hpos]
      exact hx
    have hxd : x = x / st * st + x % st := by
      rw [Nat.mul_comm]
      exact (Nat.div_add_mod x st).symm
    simp only [sparse_value, sim.s_stride] at hag ⊢
    by_cases ho : x % st = k
    · have hdz : hd1.mem w._begin.block x = 0 :=
        hdzero _ _ ⟨rfl, x / st, Nat.zero_le _, hxq, by rw [hst, ← ho]; exact hxd⟩
      rw [hdz]
      cases hf : map_find sp._map (x / st) with
      | nil => rfl
      | cons e rest =>
        have he := (map_find_head hf).1
        exact (hszero _ _ ⟨e, he, by rw [hptr e he, ho]⟩).symm
    · have hdk : hd1.mem w._begin.block x = hd.mem w._begin.block x := by
        refine hdkeep _ _ ?_
        rintro ⟨_, j, _, _, hj⟩
        rw [hst] at hj
        apply ho
        rw [hj]
        exact Nat.mul_add_mod_of_lt hk
      rw [hdk, hag]
      cases hf : map_find sp._map (x / st) with
      | nil => rfl
      | cons e rest =>
        refine (hskeep _ _ ?_).symm
        rintro ⟨e2, he2, hp⟩
        rw [hptr e2 he2] at hp
        exact ho (Ptr.mk.inj hp).2.symm

theorem sim_init {W : Type} [Zero W] {L s ssd sss : Nat} {h0 hd : Heap W}
    {w : weight_parameters} {sp : sparse_weight_parameters W}
    (hcd : weight_parameters.ctor L s ssd h0 = some (w, hd))
    (hcs : sparse_weight_parameters.ctor L s sss = some sp)
    (hL : 1 ≤ L) (hov : L * 2 ^ s < 2 ^ 64) (hfew : L ≤ 2 ^ 53) (hs : Heap W) :
    store_sim L (2 ^ s) w hd sp hs := by
  obtain ⟨_, rfl, rfl⟩ := dense_ctor_spec hcd hL hov
  obtain ⟨_, rfl⟩ := sparse_ctor_spec hcs hL hov
  have hpos : 1 ≤ L * 2 ^ s := Nat.mul_pos hL (Nat.pos_pow_of_pos s (by decide))
  refine { st_pos := Nat.pos_pow_of_pos s (by decide), bound := hov, few := hfew, d_base := rfl,
           d_mask := ?_, d_stride := rfl, d_size := ?_, s_mask := rfl, s_stride := rfl,
           s_fun := rfl, s_buckets := ?_, s_inj := ?_, agree := ?_ }
  · show L * 2 ^ s - 1 + 1 = L * 2 ^ s
    omega
  · simp [calloc_mergable_or_throw]
  · intro e he
    cases he
  · intro e he
    cases he
  · intro x _
    simp [calloc_mergable_or_throw, sparse_value, map_find]

theorem sim_run {W : Type} [Zero W] {L st : Nat} {w : weight_parameters} :
    ∀ (ops : List (store_op W)) (hd : Heap W) (sp : sparse_weight_parameters W) (hs : Heap W),
      store_sim L st w hd sp hs → (∀ k, store_op.set_zero k ∈ ops → k < st) →
      ∃ hd1 sp1 hs1, w.run ops hd = some hd1 ∧
        sparse_weight_parameters.run ops sp hs = some (sp1, hs1) ∧
        store_sim L st w hd1 sp1 hs1 := by
  intro ops
  induction ops with
  | nil =>
    intro hd sp hs sim _
    exact ⟨hd, sp, hs, rfl, rfl, sim⟩
  | cons op ops ih =>
    intro hd sp hs sim hops
    have hrest : ∀ k, store_op.set_zero k ∈ ops → k < st := fun k hk =>
      hops k (List.mem_cons_of_mem _ hk)
    cases op with
    | write i v =>
      obtain ⟨hd1, sp1, hs1, hdw, hsw, sim1⟩ := sim_write sim i v
      obtain ⟨hd2, sp2, hs2, hdr, hsr, sim2⟩ := ih hd1 sp1 hs1 sim1 hrest
      refine ⟨hd2, sp2, hs2, ?_, ?_, sim2⟩
      · simp only [weight_parameters.run, hdw]
        exact hdr
      · simp only [sparse_weight_parameters.run, hsw]
        exact hsr
    | set_zero k =>
      obtain ⟨hd1, hs1, hdz, hsz, sim1⟩ := sim_set_zero sim k (hops k (List.mem_cons_self _ _))
      obtain ⟨hd2, sp2, hs2, hdr, hsr, sim2⟩ := ih hd1 sp hs1 sim1 hrest
      refine ⟨hd2, sp2, hs2, ?_, ?_, sim2⟩
      · simp only [weight_parameters.run, hdz]
        exact hdr
      · simp only [sparse_weight_parameters.run, hsz]
        exact hsr

/-- C3, against the claim. With length `2^63` and stride shift 1 the product
`length << stride_shift` wraps to 0: the dense store has no field at all and
its read of index 0 is outside every block, while the sparse store reads 0.
With length `2^54` and stride shift 0, after writing 1.0 at raw index
`2^53 + 1` a read of raw index `2^53` gives 0 on the dense store and 1.0 on
the sparse store, whose bucket key goes through `floor`, hence through a
`double`, which cannot tell `2^53 + 1` from `2^53`. -/
theorem dense_sparse_counterexample :
    side_by_side (2 ^ 63) 1 [] 0 = some (none, some 0) ∧
    side_by_side (2 ^ 54) 0 [store_op.write (2 ^ 53 + 1) 1] (2 ^ 53) = some (some 0, some 1) := by
  constructor <;> decide

/-- C3, amended. A dense store and a sparse store are created with the same
length `L ≥ 1` and the same stride shift `s`, where `L * 2^s < 2^64` and
`L ≤ 2^53`; no default-initialisation callback is registered. Then the same
arbitrary sequence of writes by raw index and of `set_zero(offset)` calls with
`offset < 2^s` completes on both stores, and afterwards a read of any raw
index `i` succeeds on both and returns the same value. Before any write every
raw index reads 0 on both. -/
theorem dense_sparse_agree {W : Type} [Zero W] (L s ssd sss : Nat) (h0 hd hs : Heap W)
    (w : weight_parameters) (sp : sparse_weight_parameters W)
    (hcd : weight_parameters.ctor L s ssd h0 = some (w, hd))
    (hcs : sparse_weight_parameters.ctor L s sss = some sp)
    (hL : 1 ≤ L) (hov : L * 2 ^ s < 2 ^ 64) (hfew : L ≤ 2 ^ 53)
    (ops : List (store_op W)) (hops : ∀ k, store_op.set_zero k ∈ ops → k < 2 ^ s) (i : Nat) :
    (∃ hd1 sp1 hs1 x sp2 hs2, w.run ops hd = some hd1 ∧
      sparse_weight_parameters.run ops sp hs = some (sp1, hs1) ∧
      w.load hd1 i = some x ∧ sp1.load hs1 i = some (x, sp2, hs2)) ∧
    (w.load hd i = some 0 ∧ ∃ sp2 hs2, sp.load hs i = some (0, sp2, hs2)) := by
  have sim := sim_init hcd hcs hL hov hfew hs
  constructor
  · obtain ⟨hd1, sp1, hs1, hdr, hsr, sim1⟩ := sim_run ops hd sp hs sim hops
    obtain ⟨x, sp2, hs2, hx, hy⟩ := sim_read sim1 i
    exact ⟨hd1, sp1, hs1, x, sp2, hs2, hdr, hsr, hx, hy⟩
  · obtain ⟨x, sp2, hs2, hx, hy⟩ := sim_read sim i
    obtain ⟨hlt, _, _, _, _⟩ := sim_slot sim i
    have hx0 : x = 0 := by
      have h1 : w.load hd i = some (hd.mem w._begin.block (i &&& w._weight_mask)) := by
        rw [weight_parameters.load, dense_subscript_eq w hd (sim_dense_ok sim) i]
        exact Heap.read_of_size hd _ (L * 2 ^ s) sim.d_size hlt
      have h2 := sim.agree _ hlt
      obtain ⟨_, rfl, _⟩ := sparse_ctor_spec hcs hL hov
      simp only [sparse_value, map_find] at h2
      rw [h1, h2] at hx
      exact (Option.some.inj hx).symm
    subst hx0
    exact ⟨hx, sp2, hs2, hy⟩

/-- Witness for C3 (amended): Dense(8, 1) and Sparse(8, 1), after the writes
`[4] = 3.5`, `[21] = 1.0` and `set_zero(1)`, read raw index 20 alike. -/
theorem dense_sparse_agree_witness :
    ∃ hd1 sp1 hs1 x sp2 hs2,
      dense_8_1.run [store_op.write 4 (7 / 2), store_op.write 21 1, store_op.set_zero 1]
        dense_8_1_heap = some hd1 ∧
      sparse_weight_parameters.run
        [store_op.write 4 (7 / 2), store_op.write 21 1, store_op.set_zero 1] sparse_8_1
        (Heap.empty : Heap ℚ) = some (sp1, hs1) ∧
      dense_8_1.load hd1 20 = some x ∧ sp1.load hs1 20 = some (x, sp2, hs2) :=
  (dense_sparse_agree 8 1 0 0 (Heap.empty : Heap ℚ) dense_8_1_heap Heap.empty dense_8_1 sparse_8_1
    dense_8_1_ctor sparse_8_1_ctor (by decide) (by decide) (by decide)
    [store_op.write 4 (7 / 2), store_op.write 21 1, store_op.set_zero 1]
    (by
      intro k hk
      simp only [List.mem_cons, List.mem_singleton, List.not_mem_nil, or_false] at hk
      rcases hk with hk | hk | hk
      · cases hk
      · cases hk
      · cases hk
        decide) 20).1

theorem calloc_read_zero {W : Type} [Zero W] (h : Heap W) (n o : Nat) (ho : o < n) :
    (calloc_mergable_or_throw h n).2.read ⟨h.next, o⟩ = some 0 := by
  simp [Heap.read, Heap.extent, calloc_mergable_or_throw, ho]

/-- C11. Construction parameters. For every length `L ≥ 1` and stride shift
`s < 31` with `L * 2^s < 2^64`, both constructors return a store with
`mask() = L * 2^s - 1`, `stride_shift() = s`, stride `2^s` and
`seeded() = false`; `mask() + 1` is a multiple of the stride. The dense store
points at the base of a fresh block of `L * 2^s` fields that all read 0, the
rest of the heap being as before; the sparse store has an empty map and no
callback. -/
theorem construction_parameters {W : Type} [Zero W] (L s ss : Nat) (h : Heap W) (hL : 1 ≤ L)
    (hs : s < 31) (hov : L * 2 ^ s < 2 ^ 64) :
    (∃ w h1, weight_parameters.ctor L s ss h = some (w, h1) ∧
      w.mask = L * 2 ^ s - 1 ∧ w.stride_shift = s ∧ w._stride = 2 ^ s ∧ w.seeded = false ∧
      w._stride ∣ w.mask + 1 ∧
      w._begin = ⟨h.next, 0⟩ ∧ h1.size h.next = some (L * 2 ^ s) ∧
      (∀ o, o < L * 2 ^ s → h1.read ⟨h.next, o⟩ = some 0) ∧
      (∀ b, b ≠ h.next → h1.size b = h.size b ∧ h1.mem b = h.mem b)) ∧
    (∃ sp : sparse_weight_parameters W, sparse_weight_parameters.ctor L s ss = some sp ∧
      sp.mask = L * 2 ^ s - 1 ∧ sp.stride_shift = s ∧ sp._stride = 2 ^ s ∧ sp.seeded = false ∧
      sp._stride ∣ sp.mask + 1 ∧ sp._map = [] ∧ sp.fun_ = none) := by
  have hs32 : s < 32 := by omega
  have hpos : 1 ≤ L * 2 ^ s := Nat.mul_pos hL (Nat.pos_pow_of_pos s (by decide))
  have hdvd : 2 ^ s ∣ L * 2 ^ s - 1 + 1 := by
    rw [Nat.sub_add_cancel hpos]
    exact Dvd.intro_left L rfl
  constructor
  · obtain ⟨w, h1, hc⟩ : ∃ w h1, weight_parameters.ctor L s ss h = some (w, h1) := by
      unfold weight_parameters.ctor
      rw [if_pos hs32]
      exact ⟨_, _, rfl⟩
    obtain ⟨_, hw, hh⟩ := dense_ctor_spec hc hL hov
    subst hw
    subst hh
    refine ⟨_, _, hc, rfl, rfl, rfl, rfl, hdvd, rfl, ?_, ?_, ?_⟩
    · simp [calloc_mergable_or_throw]
    · intro o ho
      exact calloc_read_zero h _ o ho
    · intro b hb
      constructor
      · simp [calloc_mergable_or_throw, hb]
      · funext o
        simp [calloc_mergable_or_throw, hb]
  · obtain ⟨sp, hc⟩ : ∃ sp : sparse_weight_parameters W,
        sparse_weight_parameters.ctor L s ss = some sp := by
      unfold sparse_weight_parameters.ctor
      rw [if_pos hs32]
      exact ⟨_, rfl⟩
    obtain ⟨_, hsp⟩ := sparse_ctor_spec hc hL hov
    subst hsp
    exact ⟨_, hc, rfl, rfl, rfl, rfl, hdvd, rfl, rfl⟩

/-- Witness for C11: length 8, stride shift 1, on the empty heap. -/
theorem construction_parameters_witness :
    (∃ w h1, weight_parameters.ctor 8 1 0 (Heap.empty : Heap ℚ) = some (w, h1) ∧
      w.mask = 8 * 2 ^ 1 - 1 ∧ w._stride = 2 ^ 1 ∧ h1.size 1 = some (8 * 2 ^ 1)) ∧
    (∃ sp : sparse_weight_parameters ℚ, sparse_weight_parameters.ctor 8 1 0 = some sp ∧
      sp.mask = 8 * 2 ^ 1 - 1 ∧ sp._stride = 2 ^ 1) := by
  obtain ⟨⟨w, h1, hc, hm, _, hst, _, _, _, hsz, _⟩, ⟨sp, hcs, hms, _, hsts, _⟩⟩ :=
    construction_parameters 8 1 0 (Heap.empty : Heap ℚ) (by decide) (by decide) (by decide)
  exact ⟨⟨w, h1, hc, hm, hst, hsz⟩, ⟨sp, hcs, hms, hsts⟩⟩

/-- C19. Dense access is in bounds for every length, a power of two or not. For
a dense store created with length `L ≥ 1` and stride shift `s`,
`L * 2^s < 2^64`, and every raw index `i`: `operator[](i)` addresses offset
`i & mask()` of the backing block, this offset is below the `L * 2^s` fields
the block holds, and the field can be read. -/
theorem dense_access_in_bounds {W : Type} [Zero W] (L s ss : Nat) (h h1 : Heap W)
    (w : weight_parameters) (hc : weight_parameters.ctor L s ss h = some (w, h1))
    (hL : 1 ≤ L) (hov : L * 2 ^ s < 2 ^ 64) (i : Nat) :
    w.subscript i = ⟨w._begin.block, i &&& w.mask⟩ ∧
    i &&& w.mask < L * 2 ^ s ∧
    h1.size w._begin.block = some (L * 2 ^ s) ∧
    ∃ v, w.load h1 i = some v := by
  have ok := dense_ctor_ok hc hL hov
  have hsub := dense_subscript_eq w h1 ok i
  obtain ⟨_, rfl, rfl⟩ := dense_ctor_spec hc hL hov
  have hpos : 1 ≤ L * 2 ^ s := Nat.mul_pos hL (Nat.pos_pow_of_pos s (by decide))
  have hle : i &&& (L * 2 ^ s - 1) ≤ L * 2 ^ s - 1 := Nat.and_le_right
  have hlt : i &&& (L * 2 ^ s - 1) < L * 2 ^ s := by omega
  have hsz : (calloc_mergable_or_throw h (L * 2 ^ s)).2.size h.next = some (L * 2 ^ s) := by
    simp [calloc_mergable_or_throw]
  refine ⟨hsub, hlt, hsz, ?_⟩
  rw [weight_parameters.load, hsub]
  exact ⟨_, Heap.read_of_size _ _ (L * 2 ^ s) hsz hlt⟩

theorem dense_3_0_ctor :
    weight_parameters.ctor 3 0 0 (Heap.empty : Heap ℚ) = some (dense_3_0, dense_3_0_heap) := by
  simp [weight_parameters.ctor, dense_3_0, dense_3_0_heap, calloc_mergable_or_throw, Heap.empty,
    u64, u32]

/-- Witness for C19: Dense(3, 0), whose mask is 2: raw index 7 addresses slot
`7 & 2 = 2`, below the 3 fields allocated. -/
theorem dense_access_in_bounds_witness :
    dense_3_0.subscript 7 = ⟨1, 2⟩ ∧ 7 &&& dense_3_0.mask < 3 * 2 ^ 0 ∧
      ∃ v, dense_3_0.load dense_3_0_heap 7 = some v :=
  have hw := dense_access_in_bounds 3 0 0 (Heap.empty : Heap ℚ) dense_3_0_heap dense_3_0
    dense_3_0_ctor (by decide) (by decide) 7
  ⟨hw.1, hw.2.1, hw.2.2.2⟩

/-! ## Zero-capacity stores -/

theorem zero_length_mask (s : Nat) : u64 (u64 (0 <<< s) + (2 ^ 64 - 1)) = 2 ^ 64 - 1 := by
  rw [Nat.zero_shiftLeft]
  decide

theorem land_all_ones (i : Nat) (hi : i < 2 ^ 64) : i &&& (2 ^ 64 - 1) = i := by
  rw [Nat.and_pow_two_sub_one_eq_mod i 64, Nat.mod_eq_of_lt hi]

/-- C17, against the claim: the stores created with length 0 (and stride shift
0) have `mask() = 2^64 - 1`, not 0, and raw index 5 stays 5 under the mask. -/
theorem zero_length_mask_counterexample :
    (∃ w h1, weight_parameters.ctor 0 0 0 (Heap.empty : Heap ℚ) = some (w, h1) ∧
      w.mask = 2 ^ 64 - 1 ∧ w.mask ≠ 0 ∧ 5 &&& w.mask = 5) ∧
    (∃ sp : sparse_weight_parameters ℚ, sparse_weight_parameters.ctor 0 0 0 = some sp ∧
      sp.mask = 2 ^ 64 - 1 ∧ sp.mask ≠ 0 ∧ 5 &&& sp.mask = 5) :=
  ⟨⟨_, _, rfl, by decide, by decide, by decide⟩, ⟨_, rfl, by decide, by decide, by decide⟩⟩

theorem u64_zero : u64 0 = 0 := rfl

theorem u64_all_ones : u64 (0 + (2 ^ 64 - 1)) = 2 ^ 64 - 1 := by decide

/-- C17, amended. A default-constructed store, dense or sparse, has
`mask() = 0`, so every raw index collapses to slot 0. A store created with
length 0 and a stride shift `s < 32`, dense or sparse, has
`mask() = 2^64 - 1` (`0 - 1` wraps), so every 64-bit raw index is its own
slot. -/
theorem zero_capacity_mask {W : Type} [Zero W] (s ss i : Nat) (h : Heap W) :
    ((weight_parameters.ctor_default ss).mask = 0 ∧
      i &&& (weight_parameters.ctor_default ss).mask = 0) ∧
    ((sparse_weight_parameters.ctor_default ss : sparse_weight_parameters W).mask = 0 ∧
      i &&& (sparse_weight_parameters.ctor_default ss : sparse_weight_parameters W).mask = 0) ∧
    (s < 32 → ∃ w h1, weight_parameters.ctor 0 s ss h = some (w, h1) ∧
      w.mask = 2 ^ 64 - 1 ∧ (i < 2 ^ 64 → i &&& w.mask = i)) ∧
    (s < 32 → ∃ sp : sparse_weight_parameters W,
      sparse_weight_parameters.ctor 0 s ss = some sp ∧
      sp.mask = 2 ^ 64 - 1 ∧ (i < 2 ^ 64 → i &&& sp.mask = i)) := by
  refine ⟨⟨rfl, Nat.and_zero i⟩, ⟨rfl, Nat.and_zero i⟩, ?_, ?_⟩
  · intro hs
    refine ⟨{ _begin := (calloc_mergable_or_throw h 0).1, _weight_mask := 2 ^ 64 - 1,
              _stride_shift := s, _stride := u32 (1 <<< s), _seeded := false,
              set_struct := ss }, (calloc_mergable_or_throw h 0).2, ?_, rfl,
            fun hi => land_all_ones i hi⟩
    unfold weight_parameters.ctor
    rw [if_pos hs]
    simp only [Nat.zero_shiftLeft, u64_zero, u64_all_ones]
  · intro hs
    refine ⟨{ _map := [], _weight_mask := 2 ^ 64 - 1, _stride_shift := s,
              _stride := u32 (1 <<< s), _seeded := false, _delete := false, fun_ := none,
              set_struct := ss }, ?_, rfl, fun hi => land_all_ones i hi⟩
    unfold sparse_weight_parameters.ctor
    rw [if_pos hs]
    simp only [Nat.zero_shiftLeft, u64_zero, u64_all_ones]

/-- C18, evaluated. On the default-constructed dense store `begin()` is the
null pointer and `end()` is the null pointer plus `0 + 1`: they differ, the
loop of `set_zero(0)` writes through the null pointer, which is no field of
any block, and `set_default<T>()` invokes `T` once, on the null pointer. The
dense store created with length 0, and both sparse stores, have
`begin() == end()`. -/
theorem degenerate_iteration :
    ((weight_parameters.ctor_default 0).begin.eq (weight_parameters.ctor_default 0).end_ = false ∧
      (weight_parameters.ctor_default 0).begin.deref = nullptr ∧
      (weight_parameters.ctor_default 0).set_zero 0 (Heap.empty : Heap ℚ) = none ∧
      ∃ h1, (weight_parameters.ctor_default 0).set_default dense_set_one (Heap.empty : Heap ℚ) =
          some h1 ∧ h1.calls = [⟨nullptr, 0, 0, 1, 0⟩]) ∧
    (∃ w h1, weight_parameters.ctor 0 0 0 (Heap.empty : Heap ℚ) = some (w, h1) ∧
      w.begin.eq w.end_ = true) ∧
    ((sparse_weight_parameters.ctor_default 0 : sparse_weight_parameters ℚ).begin.eq
      (sparse_weight_parameters.ctor_default 0 : sparse_weight_parameters ℚ).end_ = true) ∧
    (∃ sp : sparse_weight_parameters ℚ, sparse_weight_parameters.ctor 0 0 0 = some sp ∧
      sp.begin.eq sp.end_ = true) := by
  refine ⟨⟨by decide, rfl, ?_, ?_⟩, ⟨_, _, rfl, by decide⟩, by decide, ⟨_, rfl, by decide⟩⟩
  · rw [weight_parameters.set_zero, weight_parameters.set_zero_loop]
    rfl
  · refine ⟨(Heap.empty : Heap ℚ).invoke ⟨nullptr, 0, 0, 1, 0⟩
      (dense_set_one ⟨nullptr, 0, 1⟩ 0 1 0), ?_, rfl⟩
    rw [weight_parameters.set_default, weight_parameters.set_default_loop]
    rfl

/-! ## Constant iteration over the sparse store -/

/-- C20, evaluated. The sparse `cend()` is built on `_map.begin()`, the
expression `cbegin()` is built on: the two members return the same iterator,
so on every sparse store `cbegin() == cend()` and a loop from `cbegin()` to
`cend()` visits no bucket. On Sparse(8, 1) holding one bucket the map is not
empty, `cbegin() == cend()`, and the loop visits nothing. -/
theorem sparse_const_range {W : Type} (sp : sparse_weight_parameters W) (fuel : Nat) :
    sp.cend = sp.cbegin ∧
    sp.cbegin.eq sp.cend = true ∧
    sparse_range sp.cend (fuel + 1) sp.cbegin = some [] ∧
    (sparse_8_1_one._map = [(2, ⟨1, 0⟩)] ∧
      sparse_8_1_one.cbegin.eq sparse_8_1_one.cend = true ∧
      sparse_range sparse_8_1_one.cend 2 sparse_8_1_one.cbegin = some []) := by
  refine ⟨rfl, ?_, ?_, by decide, by decide, by decide⟩
  · simp [sparse_weights_iterator.eq, sparse_weight_parameters.cbegin,
      sparse_weight_parameters.cend]
  · simp [sparse_range, sparse_weights_iterator.ne, sparse_weights_iterator.eq,
      sparse_weight_parameters.cbegin, sparse_weight_parameters.cend]

/-! ## The addressing invariant -/

/-- C12, evaluated. The accesses, `set_default` and `set_zero` leave the mask,
the stride shift and the stride of a store as they were (the dense
`operator[]` and `strided_index`, and both `set_zero`, yield no store at all).
The setter `stride_shift(uint32_t)` assigns `_stride_shift` alone, and
`shallow_copy` leaves `_stride` alone. So Dense(8, 1) and Sparse(8, 1), which
satisfy the invariant, have after `stride_shift(3)` the stride 2 with
`2 ^ stride_shift() = 8`; and Dense(4, 2) and Sparse(4, 2), after a
`shallow_copy` from Dense(1, 1) and Sparse(1, 1), which all satisfy the
invariant, have mask 1, stride shift 1 and stride 4: the stride is not
`2 ^ 1`, and `mask() + 1 = 2` is no multiple of it. -/
theorem addressing_invariant_broken {W : Type} [Zero W] (sp : sparse_weight_parameters W)
    (h : Heap W) (i b k : Nat) (T : sparse_callback W) (w : weight_parameters) :
    (((sp.subscript h i).2.1._weight_mask = sp._weight_mask ∧
        (sp.subscript h i).2.1._stride_shift = sp._stride_shift ∧
        (sp.subscript h i).2.1._stride = sp._stride) ∧
      ((sp.strided_index h b).2.1._weight_mask = sp._weight_mask ∧
        (sp.strided_index h b).2.1._stride_shift = sp._stride_shift ∧
        (sp.strided_index h b).2.1._stride = sp._stride) ∧
      ((sp.set_default T)._weight_mask = sp._weight_mask ∧
        (sp.set_default T)._stride_shift = sp._stride_shift ∧
        (sp.set_default T)._stride = sp._stride)) ∧
    ((w.set_stride_shift k).stride_shift = k ∧ (w.set_stride_shift k)._stride = w._stride ∧
      (sp.set_stride_shift k).stride_shift = k ∧ (sp.set_stride_shift k)._stride = sp._stride) ∧
    (addressing_invariant dense_8_1.mask dense_8_1.stride_shift dense_8_1._stride ∧
      ¬ addressing_invariant (dense_8_1.set_stride_shift 3).mask
        (dense_8_1.set_stride_shift 3).stride_shift (dense_8_1.set_stride_shift 3)._stride ∧
      addressing_invariant sparse_8_1.mask sparse_8_1.stride_shift sparse_8_1._stride ∧
      ¬ addressing_invariant (sparse_8_1.set_stride_shift 3).mask
        (sparse_8_1.set_stride_shift 3).stride_shift (sparse_8_1.set_stride_shift 3)._stride) ∧
    (addressing_invariant dense_4_2.mask dense_4_2.stride_shift dense_4_2._stride ∧
      addressing_invariant dense_1_1.mask dense_1_1.stride_shift dense_1_1._stride ∧
      (dense_4_2.shallow_copy dense_1_1)._stride ≠
        2 ^ (dense_4_2.shallow_copy dense_1_1).stride_shift ∧
      ((dense_4_2.shallow_copy dense_1_1).mask + 1) %
        (dense_4_2.shallow_copy dense_1_1)._stride ≠ 0 ∧
      addressing_invariant sparse_4_2.mask sparse_4_2.stride_shift sparse_4_2._stride ∧
      addressing_invariant sparse_1_1.mask sparse_1_1.stride_shift sparse_1_1._stride ∧
      (sparse_4_2.shallow_copy sparse_1_1)._stride ≠
        2 ^ (sparse_4_2.shallow_copy sparse_1_1).stride_shift ∧
      ((sparse_4_2.shallow_copy sparse_1_1).mask + 1) %
        (sparse_4_2.shallow_copy sparse_1_1)._stride ≠ 0) := by
  refine ⟨⟨?_, ?_, ⟨rfl, rfl, rfl⟩⟩, ⟨rfl, rfl, rfl, rfl⟩, ?_, ?_⟩
  · cases hk : map_find sp._map (sp.bucket_key i) with
    | nil => simp [sparse_weight_parameters.subscript, hk]
    | cons e rest => simp [sparse_weight_parameters.subscript, hk]
  · cases hk : map_find sp._map b with
    | nil => simp [sparse_weight_parameters.strided_index, hk]
    | cons e rest => simp [sparse_weight_parameters.strided_index, hk]
  · unfold addressing_invariant
    decide
  · unfold addressing_invariant
    decide

/-! ## Growth of the sparse map -/

theorem map_find_cons_keep (m : weight_map) (k0 : Nat) (p : Ptr) (hk0 : map_find m k0 = [])
    (key : Nat) (e : Nat × Ptr) (rest : weight_map) (hf : map_find m key = e :: rest) :
    map_find ((k0, p) :: m) key = e :: rest := by
  have hne : ¬ k0 = key := by
    intro he
    rw [he, hf] at hk0
    cases hk0
  simp only [map_find, hne, if_false]
  exact hf

theorem sparse_strided_index_absent {W : Type} [Zero W] (sp : sparse_weight_parameters W)
    (h : Heap W) (b : Nat) (hk : map_find sp._map b = []) :
    sp.strided_index h b =
      (⟨h.next, 0⟩, { sp with _map := (b, ⟨h.next, 0⟩) :: sp._map }, (sp.materialise h b).2) := by
  have hm := materialise_map sp h b hk
  simp only [sparse_weight_parameters.strided_index, hk, hm]
  simp [map_find, map_second]

theorem sparse_set_zero_loop_frame {W : Type} [Zero W] (offset : Nat) :
    ∀ (m : weight_map) (h h1 : Heap W),
      sparse_weight_parameters.set_zero_loop offset m h = some h1 →
      h1.size = h.size ∧ h1.next = h.next := by
  intro m
  induction m with
  | nil =>
    intro h h1 hz
    simp only [sparse_weight_parameters.set_zero_loop, Option.some.injEq] at hz
    subst hz
    exact ⟨rfl, rfl⟩
  | cons e rest ih =>
    intro h h1 hz
    simp only [sparse_weight_parameters.set_zero_loop] at hz
    cases hw : h.write (e.2.add offset) 0 with
    | none =>
      rw [hw] at hz
      cases hz
    | some h2 =>
      rw [hw] at hz
      obtain ⟨hs, hn⟩ := ih h2 h1 hz
      obtain ⟨rfl, _⟩ := Heap.write_inv hw
      exact ⟨hs, hn⟩

/-- C14. Sparse storage grows monotonically, in every state of a sparse
store. `operator[](i)` and `strided_index(b)` always return: the map afterwards
is the map before, or the map before with one entry added, for the key
addressed and a fresh block; every key present before is found afterwards with
the same entry, hence the same block; the key addressed is present afterwards
and the address returned is the requested field of its block; no block other
than the fresh one changes its allocation state. `set_default` leaves the map
as it is. `set_zero` only enumerates the map (it yields no store) and, when it
completes, has allocated and released nothing. -/
theorem sparse_monotone {W : Type} [Zero W] (sp : sparse_weight_parameters W) (h : Heap W)
    (i b k : Nat) (T : sparse_callback W) :
    (((sp.subscript h i).2.1._map = sp._map ∨
        (map_find sp._map (sp.bucket_key i) = [] ∧
          (sp.subscript h i).2.1._map = (sp.bucket_key i, ⟨h.next, 0⟩) :: sp._map)) ∧
      (∀ key e rest, map_find sp._map key = e :: rest →
        map_find (sp.subscript h i).2.1._map key = e :: rest) ∧
      (∃ e rest, map_find (sp.subscript h i).2.1._map (sp.bucket_key i) = e :: rest ∧
        (sp.subscript h i).1 = e.2.add (sp.bucket_offset i)) ∧
      (sp.subscript h i).2.1._map.length ≤ sp._map.length + 1 ∧
      (∀ blk, blk ≠ h.next → (sp.subscript h i).2.2.size blk = h.size blk)) ∧
    (((sp.strided_index h b).2.1._map = sp._map ∨
        (map_find sp._map b = [] ∧
          (sp.strided_index h b).2.1._map = (b, ⟨h.next, 0⟩) :: sp._map)) ∧
      (∀ key e rest, map_find sp._map key = e :: rest →
        map_find (sp.strided_index h b).2.1._map key = e :: rest) ∧
      (∃ e rest, map_find (sp.strided_index h b).2.1._map b = e :: rest ∧
        (sp.strided_index h b).1 = e.2) ∧
      (sp.strided_index h b).2.1._map.length ≤ sp._map.length + 1 ∧
      (∀ blk, blk ≠ h.next → (sp.strided_index h b).2.2.size blk = h.size blk)) ∧
    (sp.set_default T)._map = sp._map ∧
    (∀ h1, sp.set_zero k h = some h1 → h1.size = h.size ∧ h1.next = h.next) := by
  refine ⟨?_, ?_, rfl, fun h1 hz => sparse_set_zero_loop_frame k sp._map h h1 hz⟩
  · cases hk : map_find sp._map (sp.bucket_key i) with
    | nil =>
      rw [sparse_subscript_absent sp h i hk]
      refine ⟨Or.inr ⟨rfl, rfl⟩, ?_, ?_, ?_, ?_⟩
      · intro key e rest hf
        exact map_find_cons_keep sp._map _ _ hk key e rest hf
      · exact ⟨(sp.bucket_key i, ⟨h.next, 0⟩), sp._map, by simp [map_find], rfl⟩
      · simp
      · intro blk hblk
        simp [(materialise_size sp h _).1, hblk]
    | cons e rest =>
      rw [sparse_subscript_present sp h i e rest hk]
      exact ⟨Or.inl rfl, fun _ _ _ hf => hf, ⟨e, rest, hk, rfl⟩, Nat.le_succ _, fun _ _ => rfl⟩
  · cases hk : map_find sp._map b with
    | nil =>
      rw [sparse_strided_index_absent sp h b hk]
      refine ⟨Or.inr ⟨rfl, rfl⟩, ?_, ?_, ?_, ?_⟩
      · intro key e rest hf
        exact map_find_cons_keep sp._map _ _ hk key e rest hf
      · exact ⟨(b, ⟨h.next, 0⟩), sp._map, by simp [map_find], rfl⟩
      · simp
      · intro blk hblk
        simp [(materialise_size sp h _).1, hblk]
    | cons e rest =>
      have hsi : sp.strided_index h b = (e.2, sp, h) := by
        simp only [sparse_weight_parameters.strided_index, hk]
      rw [hsi]
      exact ⟨Or.inl rfl, fun _ _ _ hf => hf, ⟨e, rest, hk, rfl⟩, Nat.le_succ _, fun _ _ => rfl⟩

/-! ## Access by bucket index -/

theorem pow_mask_absorbs (e s b : Nat) (hb : b < 2 ^ e) :
    u64 (b <<< s) &&& u64 (u64 (2 ^ e <<< s) + (2 ^ 64 - 1)) = u64 (b <<< s) := by
  have hx : u64 (b <<< s) < 2 ^ 64 := Nat.mod_lt _ (by decide)
  by_cases hes : e + s < 64
  · have hov : 2 ^ e * 2 ^ s < 2 ^ 64 := by
      rw [← Nat.pow_add]
      exact Nat.pow_lt_pow_right (by decide) hes
    have hbs : b * 2 ^ s < 2 ^ e * 2 ^ s :=
      Nat.mul_lt_mul_of_pos_right hb (Nat.pos_pow_of_pos s (by decide))
    rw [mask_no_overflow (Nat.pos_pow_of_pos e (by decide)) hov, Nat.shiftLeft_eq,
      u64_of_lt (lt_trans hbs hov), ← Nat.pow_add, Nat.and_pow_two_sub_one_eq_mod]
    rw [← Nat.pow_add] at hbs
    exact Nat.mod_eq_of_lt hbs
  · have hdvd : (2 : Nat) ^ 64 ∣ 2 ^ e <<< s := by
      rw [Nat.shiftLeft_eq, ← Nat.pow_add]
      exact Nat.pow_dvd_pow 2 (by omega)
    have h0 : u64 (2 ^ e <<< s) = 0 := Nat.mod_eq_zero_of_dvd hdvd
    have h1 : u64 (0 + (2 ^ 64 - 1)) = 2 ^ 64 - 1 := by decide
    rw [h0, h1]
    exact land_all_ones _ hx

/-- C13, against the claim. On Dense(3, 0), whose length is no power of two and
whose mask is 2, `strided_index(1)` is field 1 of the block while
`operator[](1 << 0)` is field `1 & 2 = 0`. On Sparse(2^54, 0),
`strided_index(2^53 + 1)` makes the bucket of key `2^53 + 1` while
`operator[]((2^53 + 1) << 0)` makes the bucket of key `2^53`, the key having
gone through a `double`. On Sparse(2^53, 31), `2^33 << 31` wraps to 0, so
`operator[]` makes the bucket of key 0 where `strided_index(2^33)` makes that
of key `2^33`. -/
theorem strided_index_counterexample :
    (weight_parameters.ctor 3 0 0 (Heap.empty : Heap ℚ) = some (dense_3_0, dense_3_0_heap) ∧
      dense_3_0.strided_index 1 = ⟨1, 1⟩ ∧ dense_3_0.subscript (u64 (1 <<< 0)) = ⟨1, 0⟩) ∧
    (∃ sp : sparse_weight_parameters ℚ, sparse_weight_parameters.ctor (2 ^ 54) 0 0 = some sp ∧
      (sp.strided_index Heap.empty (2 ^ 53 + 1)).2.1._map = [(2 ^ 53 + 1, ⟨1, 0⟩)] ∧
      (sp.subscript Heap.empty (u64 ((2 ^ 53 + 1) <<< 0))).2.1._map = [(2 ^ 53, ⟨1, 0⟩)]) ∧
    (∃ sp : sparse_weight_parameters ℚ, sparse_weight_parameters.ctor (2 ^ 53) 31 0 = some sp ∧
      (sp.strided_index Heap.empty (2 ^ 33)).2.1._map = [(2 ^ 33, ⟨1, 0⟩)] ∧
      (sp.subscript Heap.empty (u64 (2 ^ 33 <<< 31))).2.1._map = [(0, ⟨1, 0⟩)]) :=
  ⟨⟨dense_3_0_ctor, by decide, by decide⟩, ⟨_, rfl, by decide, by decide⟩,
    ⟨_, rfl, by decide, by decide⟩⟩

/-- C13, amended. For a dense store created with a power-of-two length `2^e`
and stride shift `s`, and every bucket index `b < 2^e`, `strided_index(b)`
returns the same field as `operator[](b << s)`; when `2^e * 2^s < 2^64` this is
the first field of bucket `b`, the one the iterator dereferences to after `b`
steps. For a sparse store in any state with the addressing parameters of such a
construction (its map holding machine pointers), provided `2^e * 2^s < 2^64`
and `2^e ≤ 2^53`, the two calls return the same field and end in the same
store and the same heap, trace of callback invocations included. -/
theorem strided_index_agrees {W : Type} [Zero W] (e s ssd sss : Nat) (h0 h1 h : Heap W)
    (w : weight_parameters) (sp0 sp : sparse_weight_parameters W) (b : Nat)
    (hcd : weight_parameters.ctor (2 ^ e) s ssd h0 = some (w, h1))
    (hcs : sparse_weight_parameters.ctor (2 ^ e) s sss = some sp0)
    (hb : b < 2 ^ e)
    (hmask : sp._weight_mask = sp0._weight_mask)
    (hshift : sp._stride_shift = sp0._stride_shift)
    (hstride : sp._stride = sp0._stride)
    (hoff : ∀ en ∈ sp._map, en.2.off < 2 ^ 64) :
    w.strided_index b = w.subscript (u64 (b <<< s)) ∧
    (2 ^ e * 2 ^ s < 2 ^ 64 → w.strided_index b = (w.begin.advance b).deref) ∧
    (2 ^ e * 2 ^ s < 2 ^ 64 → 2 ^ e ≤ 2 ^ 53 →
      sp.strided_index h b = sp.subscript h (u64 (b <<< s))) := by
  have hL : 1 ≤ 2 ^ e := Nat.pos_pow_of_pos e (by decide)
  have hspos : 0 < 2 ^ s := Nat.pos_pow_of_pos s (by decide)
  refine ⟨?_, ?_, ?_⟩
  · unfold weight_parameters.ctor at hcd
    split at hcd
    · simp only [Option.some.injEq, Prod.mk.injEq] at hcd
      obtain ⟨hw, _⟩ := hcd
      subst hw
      simp only [weight_parameters.strided_index, weight_parameters.subscript,
        pow_mask_absorbs e s b hb]
    · exact absurd hcd (by simp)
  · intro hov
    have lay := dense_ctor_layout hcd hL hov
    obtain ⟨_, hw, _⟩ := dense_ctor_spec hcd hL hov
    have hadv := dense_advance_begin w (2 ^ e) lay b (le_of_lt hb)
    have hbs : b * 2 ^ s < 2 ^ e * 2 ^ s := Nat.mul_lt_mul_of_pos_right hb hspos
    rw [weights_iterator.deref, hadv]
    subst hw
    simp only [weight_parameters.strided_index, Ptr.add, Nat.shiftLeft_eq, Nat.zero_add,
      u64_of_lt (lt_trans hbs hov)]
  · intro hov hfew
    obtain ⟨_, hsp0⟩ := sparse_ctor_spec hcs hL hov
    subst hsp0
    simp only at hmask hshift hstride
    have hbs : b * 2 ^ s < 2 ^ e * 2 ^ s := Nat.mul_lt_mul_of_pos_right hb hspos
    have hb53 : b < 2 ^ 53 := lt_of_lt_of_le hb hfew
    have hx : u64 (b <<< s) = b * 2 ^ s := by
      rw [Nat.shiftLeft_eq, u64_of_lt (lt_trans hbs hov)]
    have hand : (b * 2 ^ s) &&& (2 ^ e * 2 ^ s - 1) = b * 2 ^ s := by
      rw [← Nat.pow_add, Nat.and_pow_two_sub_one_eq_mod]
      rw [← Nat.pow_add] at hbs
      exact Nat.mod_eq_of_lt hbs
    have hkey : sp.bucket_key (u64 (b <<< s)) = b := by
      simp only [sparse_weight_parameters.bucket_key, hmask, hstride, hx, hand,
        Nat.mul_div_cancel b hspos]
      rw [floor_of_lt hb53, u64_of_lt (lt_trans hb53 (by decide))]
    have hofs : sp.bucket_offset (u64 (b <<< s)) = 0 := by
      simp only [sparse_weight_parameters.bucket_offset, hmask, hstride, hx, hand]
      exact Nat.mul_mod_left b (2 ^ s)
    cases hk : map_find sp._map b with
    | nil =>
      rw [sparse_strided_index_absent sp h b hk,
        sparse_subscript_absent sp h _ (by rw [hkey]; exact hk), hkey, hofs]
      simp [Ptr.add, u64]
    | cons en rest =>
      have hsi : sp.strided_index h b = (en.2, sp, h) := by
        simp only [sparse_weight_parameters.strided_index, hk]
      rw [hsi, sparse_subscript_present sp h _ en rest (by rw [hkey]; exact hk), hofs]
      have ho := hoff en (map_find_head hk).1
      simp [Ptr.add, u64_of_lt ho]

/-- Witness for C13 (amended): Dense(8, 1), and Sparse(8, 1) holding the
bucket of key 2, for the bucket indices 2 (present) and 5 (absent). -/
theorem strided_index_agrees_witness :
    (dense_8_1.strided_index 2 = dense_8_1.subscript (u64 (2 <<< 1)) ∧
      sparse_8_1_one.strided_index sparse_8_1_fives 2 =
        sparse_8_1_one.subscript sparse_8_1_fives (u64 (2 <<< 1))) ∧
    (dense_8_1.strided_index 5 = dense_8_1.subscript (u64 (5 <<< 1)) ∧
      sparse_8_1_one.strided_index sparse_8_1_fives 5 =
        sparse_8_1_one.subscript sparse_8_1_fives (u64 (5 <<< 1))) := by
  have hoff : ∀ en ∈ sparse_8_1_one._map, en.2.off < 2 ^ 64 := by
    intro en hen
    have : en = (2, (⟨1, 0⟩ : Ptr)) := by
      simpa [sparse_8_1_one] using hen
    subst this
    decide
  have h2 := strided_index_agrees 3 1 0 0 (Heap.empty : Heap ℚ) dense_8_1_heap sparse_8_1_fives
    dense_8_1 sparse_8_1 sparse_8_1_one 2 dense_8_1_ctor sparse_8_1_ctor (by decide) rfl rfl rfl
    hoff
  have h5 := strided_index_agrees 3 1 0 0 (Heap.empty : Heap ℚ) dense_8_1_heap sparse_8_1_fives
    dense_8_1 sparse_8_1 sparse_8_1_one 5 dense_8_1_ctor sparse_8_1_ctor (by decide) rfl rfl rfl
    hoff
  exact ⟨⟨h2.1, h2.2.2 (by decide) (by decide)⟩, ⟨h5.1, h5.2.2 (by decide) (by decide)⟩⟩

/-! ## Destruction -/

theorem free_live {W : Type} (h : Heap W) (p : Ptr) (n : Nat) (hnn : p.block ≠ 0)
    (hbase : p.off = 0) (hlive : h.size p.block = some n) :
    free h p = some { h with size := fun b => if b = p.block then none else h.size b } := by
  have hp : ¬ p = nullptr := by
    intro he
    rw [he] at hnn
    exact hnn rfl
  simp [free, hp, hlive, hbase]

theorem free_released {W : Type} (h : Heap W) (p : Ptr) (hnn : p.block ≠ 0)
    (hdead : h.size p.block = none) : free h p = none := by
  have hp : ¬ p = nullptr := by
    intro he
    rw [he] at hnn
    exact hnn rfl
  simp [free, hp, hdead]

/-- What `share(length)` does to a store whose backing block is a live block
of the allocator and holds the `n` fields that `length << _stride_shift`
counts, `1 ≤ n < 2^62`: the store points at a fresh mapping, which is no block
of the allocator, and the former block is released. -/
theorem share_spec {W : Type} [Zero W] (w : weight_parameters) (h : Heap W) (L n : Nat)
    (hcount : u64 (L <<< w._stride_shift) = n) (hn1 : 1 ≤ n) (hn : n < 2 ^ 62)
    (hbase : w._begin.off = 0) (hlive : h.size w._begin.block = some n)
    (hfresh : w._begin.block ≠ h.next) :
    ∃ h2, w.share L h = some ({ w with _begin := ⟨h.next, 0⟩ }, h2) ∧
      h2.size h.next = none ∧ h2.maps h.next = some n ∧
      (∀ o, o < n → h2.mem h.next o = h.mem w._begin.block o) ∧
      (w._begin ≠ nullptr → h2.size w._begin.block = none) := by
  have hbytes : u64 (n * sizeof_float) = n * 4 := by
    rw [show sizeof_float = 4 from rfl]
    exact u64_of_lt (by omega)
  have hne : ¬ n * 4 = 0 := by omega
  have hdiv : n * 4 / sizeof_float = n := by
    rw [show sizeof_float = 4 from rfl]
    exact Nat.mul_div_cancel n (by decide)
  have hn0 : ¬ n = 0 := by omega
  have hfresh2 : ¬ h.next = w._begin.block := fun he => hfresh he.symm
  -- the mapping
  have hmap : mmap_shared_anonymous h (n * 4) =
      (⟨h.next, 0⟩,
       { h with
         next := h.next + 1
         size := fun b => if b = h.next then none else h.size b
         maps := fun b => if b = h.next then some n else h.maps b
         mem := fun b o => if b = h.next then 0 else h.mem b o }) := by
    simp only [mmap_shared_anonymous, hne, if_false, hdiv]
  -- the copy
  have hcopy : memcpy (mmap_shared_anonymous h (n * 4)).2 (mmap_shared_anonymous h (n * 4)).1
      w._begin (n * 4) =
      some { next := h.next + 1
             size := fun b => if b = h.next then none else h.size b
             mem := fun b o =>
               if b = h.next ∧ o < n then h.mem w._begin.block o
               else if b = h.next then 0 else h.mem b o
             calls := h.calls
             maps := fun b => if b = h.next then some n else h.maps b } := by
    rw [hmap]
    simp only [memcpy, Heap.extent, hdiv, hn0, if_false, if_true, hfresh, hlive, hbase,
      Nat.zero_add, le_refl, and_self, Nat.zero_le, true_and, Nat.sub_zero]
  by_cases hp : w._begin = nullptr
  · refine ⟨{ next := h.next + 1
              size := fun b => if b = h.next then none else h.size b
              mem := fun b o =>
                if b = h.next ∧ o < n then h.mem w._begin.block o
                else if b = h.next then 0 else h.mem b o
              calls := h.calls
              maps := fun b => if b = h.next then some n else h.maps b },
            ?_, ?_, ?_, ?_, fun hc => absurd hp hc⟩
    · have hfree0 : ∀ g : Heap W, free g w._begin = some g := fun g => by simp [free, hp]
      simp only [weight_parameters.share, hcount, hbytes, hcopy, hfree0]
      rw [hmap]
    · simp
    · simp
    · intro o ho
      simp [ho]
  · have hfree : free { next := h.next + 1
                        size := fun b => if b = h.next then none else h.size b
                        mem := fun b o =>
                          if b = h.next ∧ o < n then h.mem w._begin.block o
                          else if b = h.next then 0 else h.mem b o
                        calls := h.calls
                        maps := fun b => if b = h.next then some n else h.maps b } w._begin =
        some { next := h.next + 1
               size := fun b => if b = w._begin.block then none
                 else if b = h.next then none else h.size b
               mem := fun b o =>
                 if b = h.next ∧ o < n then h.mem w._begin.block o
                 else if b = h.next then 0 else h.mem b o
               calls := h.calls
               maps := fun b => if b = h.next then some n else h.maps b } := by
      simp only [free, hp, if_false, hfresh, hlive, hbase, if_true]
    refine ⟨{ next := h.next + 1
              size := fun b => if b = w._begin.block then none
                else if b = h.next then none else h.size b
              mem := fun b o =>
                if b = h.next ∧ o < n then h.mem w._begin.block o
                else if b = h.next then 0 else h.mem b o
              calls := h.calls
              maps := fun b => if b = h.next then some n else h.maps b },
            ?_, ?_, ?_, ?_, fun _ => ?_⟩
    · simp only [weight_parameters.share, hcount, hbytes, hcopy, hfree]
      rw [hmap]
    · simp
    · simp
    · intro o ho
      simp [ho]
    · simp

/-- The destructor of an unaliased dense owner whose backing block is a live
block of the allocator. -/
theorem owner_destruction {W : Type} (a : weight_parameters) (h : Heap W) (n : Nat)
    (hown : a._seeded = false) (hnn : a._begin.block ≠ 0) (hbase : a._begin.off = 0)
    (hlive : h.size a._begin.block = some n) :
    ∃ h2, a.dtor h = some ({ a with _begin := nullptr }, h2) ∧
      h2.size a._begin.block = none ∧
      (∀ blk, blk ≠ a._begin.block → h2.size blk = h.size blk) ∧
      h2.maps = h.maps ∧ h2.mem = h.mem ∧ h2.next = h.next ∧
      free h2 a._begin = none ∧
      ({ a with _begin := nullptr } : weight_parameters).dtor h2 =
        some ({ a with _begin := nullptr }, h2) := by
  have hp : ¬ a._begin = nullptr := by
    intro he
    rw [he] at hnn
    exact hnn rfl
  have hfree := free_live h a._begin n hnn hbase hlive
  refine ⟨{ h with size := fun blk => if blk = a._begin.block then none else h.size blk },
    ?_, ?_, ?_, rfl, rfl, rfl, ?_, ?_⟩
  · simp only [weight_parameters.dtor, ne_eq, hp, not_false_eq_true, hown, and_self, if_true,
      hfree]
  · simp
  · intro blk hblk
    simp [hblk]
  · exact free_released _ _ hnn (by simp)
  · simp [weight_parameters.dtor]

/-- The destructor of an unaliased dense owner after `share(length)`: `_begin`
is the address of the mapping, which `free` is not defined on. -/
theorem promoted_destruction {W : Type} [Zero W] (a : weight_parameters) (h : Heap W)
    (L n : Nat) (hown : a._seeded = false) (hbase : a._begin.off = 0)
    (hlive : h.size a._begin.block = some n) (hcount : u64 (L <<< a._stride_shift) = n)
    (hn1 : 1 ≤ n) (hn : n < 2 ^ 62) (hfresh : a._begin.block ≠ h.next) (hnext : h.next ≠ 0) :
    ∃ a2 h2, a.share L h = some (a2, h2) ∧ a2.seeded = false ∧ a2._begin = ⟨h.next, 0⟩ ∧
      h2.maps h.next = some n ∧ a2.dtor h2 = none := by
  obtain ⟨h2, hshare, hsz, hmp, _, _⟩ := share_spec a h L n hcount hn1 hn hbase hlive hfresh
  refine ⟨_, h2, hshare, hown, rfl, hmp, ?_⟩
  have hfree : free h2 (⟨h.next, 0⟩ : Ptr) = none := free_released h2 ⟨h.next, 0⟩ hnext hsz
  have hp : ¬ (⟨h.next, 0⟩ : Ptr) = nullptr := by
    intro he
    exact hnext (congrArg Ptr.block he)
  simp [weight_parameters.dtor, hp, hown, hfree]

/-- C16, evaluated. Alias safety on destruction, over the heap's record of
live and released blocks. The destructor of a store with `seeded() = true`,
dense or sparse, releases nothing: the dense one returns the heap it was
given, the sparse one never touches the heap. So with `b` an alias of `a`,
destroying `b` leaves the heap, hence every field of `a`, as it was. The
destructor of an unaliased dense owner `a` whose backing block is a live block
of the allocator releases that block and no other, nulls `_begin`, and leaves
all contents alone; a further `free` of the block would be an error, and a
second run of the destructor does nothing: the block is released exactly once
(so on Dense(8, 1)). The destructor of an unaliased dense owner that
`share(L)` has promoted calls `free` on the address of the mapping, which is
no block of the allocator: the call is undefined, on every such store, and on
Dense(8, 1) after `share(8)`. -/
theorem alias_destruction {W : Type} [Zero W] (a b : weight_parameters) (h : Heap W)
    (n L : Nat) (sa sb : sparse_weight_parameters W) :
    (∀ (w : weight_parameters) (g : Heap W), w.seeded = true → w.dtor g = some (w, g)) ∧
    (∀ sp : sparse_weight_parameters W, sp.seeded = true → sp.dtor = sp) ∧
    (b.shallow_copy a).dtor h = some (b.shallow_copy a, h) ∧
    (sb.shallow_copy sa).dtor = sb.shallow_copy sa ∧
    (a._seeded = false → a._begin.block ≠ 0 → a._begin.off = 0 →
      h.size a._begin.block = some n →
      ∃ h2, a.dtor h = some ({ a with _begin := nullptr }, h2) ∧
        h2.size a._begin.block = none ∧
        (∀ blk, blk ≠ a._begin.block → h2.size blk = h.size blk) ∧
        h2.maps = h.maps ∧ h2.mem = h.mem ∧ h2.next = h.next ∧
        free h2 a._begin = none ∧
        ({ a with _begin := nullptr } : weight_parameters).dtor h2 =
          some ({ a with _begin := nullptr }, h2)) ∧
    (∃ h2, dense_8_1.dtor dense_8_1_heap = some ({ dense_8_1 with _begin := nullptr }, h2) ∧
      h2.size 1 = none ∧ free h2 dense_8_1._begin = none) ∧
    (a._seeded = false → a._begin.off = 0 → h.size a._begin.block = some n →
      u64 (L <<< a._stride_shift) = n → 1 ≤ n → n < 2 ^ 62 → a._begin.block ≠ h.next →
      h.next ≠ 0 →
      ∃ a2 h2, a.share L h = some (a2, h2) ∧ a2.seeded = false ∧ a2._begin = ⟨h.next, 0⟩ ∧
        h2.maps h.next = some n ∧ a2.dtor h2 = none) ∧
    (∃ a2 h2, dense_8_1.share 8 dense_8_1_heap = some (a2, h2) ∧ a2.seeded = false ∧
      a2._begin = ⟨2, 0⟩ ∧ h2.maps 2 = some 16 ∧ a2.dtor h2 = none) := by
  have hseeded : ∀ (w : weight_parameters) (g : Heap W), w.seeded = true →
      w.dtor g = some (w, g) := by
    intro w g hw
    simp only [weight_parameters.seeded] at hw
    simp [weight_parameters.dtor, hw]
  have hsparse : ∀ sp : sparse_weight_parameters W, sp.seeded = true → sp.dtor = sp := by
    intro sp hsp
    simp only [sparse_weight_parameters.seeded] at hsp
    simp [sparse_weight_parameters.dtor, hsp]
  refine ⟨hseeded, hsparse, hseeded _ h rfl, hsparse _ rfl, ?_, ?_, ?_, ?_⟩
  · intro hown hnn hbase hlive
    exact owner_destruction a h n hown hnn hbase hlive
  · obtain ⟨h2, hd, hs, _, _, _, _, hf, _⟩ :=
      owner_destruction dense_8_1 dense_8_1_heap 16 rfl (by decide) rfl rfl
    exact ⟨h2, hd, hs, hf⟩
  · intro hown hbase hlive hcount hn1 hn hfresh hnext
    exact promoted_destruction a h L n hown hbase hlive hcount hn1 hn hfresh hnext
  · exact promoted_destruction dense_8_1 dense_8_1_heap 8 16 rfl rfl rfl (by decide)
      (by decide) (by decide) (by decide) (by decide)

/-! ## Promotion to a shared mapping -/

/-- C15. Promotion to a shared mapping preserves the contents. A dense store
is created with length `L ≥ 1` and stride shift `s`, its `L * 2^s` fields
taking fewer than `2^64` bytes, and is unaliased; its fields hold any values
(`h` has the blocks of the heap the constructor left and any contents). Then
`share(L)` completes; every raw index reads, through the store after the call,
the value it read before; `mask()`, `stride_shift()`, the stride and
`seeded() = false` are unchanged; the store now points at the base of a fresh
block and its former block is released; and a copy taken afterwards reports
`seeded() = true`. -/
theorem share_preserves {W : Type} [Zero W] (L s ss : Nat) (h0 h1 h : Heap W)
    (w : weight_parameters) (hc : weight_parameters.ctor L s ss h0 = some (w, h1))
    (hsize : h.size = h1.size) (hnext : h.next = h1.next) (hL : 1 ≤ L)
    (hbytes : L * 2 ^ s < 2 ^ 62) :
    ∃ w2 h2, w.share L h = some (w2, h2) ∧
      (∀ i, ∃ v, w.load h i = some v ∧ w2.load h2 i = some v) ∧
      w2.mask = w.mask ∧ w2.stride_shift = w.stride_shift ∧ w2._stride = w._stride ∧
      w.seeded = false ∧ w2.seeded = false ∧
      w2._begin = ⟨h.next, 0⟩ ∧ (w._begin ≠ nullptr → h2.size w._begin.block = none) ∧
      (∀ b : weight_parameters, (b.shallow_copy w2).seeded = true ∧
        (weight_parameters.ctor_copy b w2).seeded = true) := by
  have hov : L * 2 ^ s < 2 ^ 64 := lt_trans hbytes (by decide)
  have hpos : 1 ≤ L * 2 ^ s := Nat.mul_pos hL (Nat.pos_pow_of_pos s (by decide))
  obtain ⟨_, hw, hh1⟩ := dense_ctor_spec hc hL hov
  subst hw
  subst hh1
  have hlive : h.size h0.next = some (L * 2 ^ s) := by
    rw [hsize]
    simp [calloc_mergable_or_throw]
  have hnx : h.next = h0.next + 1 := by
    rw [hnext]
    rfl
  obtain ⟨h2, hshare, hsz2, hmp2, hmem2, hrel⟩ :=
    share_spec
      ({ _begin := ⟨h0.next, 0⟩, _weight_mask := L * 2 ^ s - 1, _stride_shift := s,
         _stride := 2 ^ s, _seeded := false, set_struct := ss } : weight_parameters)
      h L (L * 2 ^ s) (shift_no_overflow hov) hpos hbytes rfl hlive
      (by show h0.next ≠ h.next; omega)
  refine ⟨_, h2, hshare, ?_, rfl, rfl, rfl, rfl, rfl, rfl, hrel, fun b => ⟨rfl, rfl⟩⟩
  intro i
  have hle : i &&& (L * 2 ^ s - 1) ≤ L * 2 ^ s - 1 := Nat.and_le_right
  have hlt : i &&& (L * 2 ^ s - 1) < L * 2 ^ s := by omega
  have h64 : i &&& (L * 2 ^ s - 1) < 2 ^ 64 := lt_trans hlt hov
  refine ⟨h.mem h0.next (i &&& (L * 2 ^ s - 1)), ?_, ?_⟩
  · simp only [weight_parameters.load, weight_parameters.subscript, Ptr.add, Nat.zero_add,
      u64_of_lt h64]
    exact Heap.read_of_size h ⟨h0.next, _⟩ (L * 2 ^ s) hlive hlt
  · simp only [weight_parameters.load, weight_parameters.subscript, Ptr.add, Nat.zero_add,
      u64_of_lt h64]
    rw [Heap.read_of_extent h2 ⟨h.next, _⟩ (L * 2 ^ s) (by simp [Heap.extent, hsz2, hmp2]) hlt]
    exact congrArg some (hmem2 _ hlt)

/-- Witness for C15 (Scenario C): Dense(8, 1) with 5.0 in every field;
`share(8)` completes and raw index 20 still reads 5.0. -/
theorem share_preserves_witness :
    ∃ w2 h2, dense_8_1.share 8 dense_8_1_fives = some (w2, h2) ∧
      dense_8_1.load dense_8_1_fives 20 = some 5 ∧ w2.load h2 20 = some 5 ∧
      w2.seeded = false ∧
      (weight_parameters.ctor_copy (weight_parameters.ctor_default 0) w2).seeded = true := by
  obtain ⟨w2, h2, hs, hread, _, _, _, _, hseed, _, _, hcopy⟩ :=
    share_preserves 8 1 0 (Heap.empty : Heap ℚ) dense_8_1_heap dense_8_1_fives dense_8_1
      dense_8_1_ctor rfl rfl (by decide) (by decide)
  obtain ⟨v, hv1, hv2⟩ := hread 20
  have h5 : dense_8_1.load dense_8_1_fives 20 = some 5 := by decide
  rw [h5] at hv1
  have hv : v = 5 := (Option.some.inj hv1).symm
  subst hv
  exact ⟨w2, h2, hs, h5, hv2, hseed, (hcopy _).2⟩

end VW
